import Mathlib

/-!
Verification model of the cnpy numeric-array codec (carlomt/cnpy).

The C++ sources are embedded shallowly over `List Nat`, where each list
element is one byte value (0..255).  Machine integers (`uint16_t`,
`uint32_t`, `size_t`) are modelled as `Nat` with explicit `% 2^w`
truncation exactly where the source casts or can wrap.  File streams are
modelled by `ByteStream` (a byte list together with a read position and a
fail flag), matching the behaviour of `std::istream::read` and `gcount`.
Fallible code returns `Except NpyErr` with one error constructor per
`throw` site of the source.
-/

set_option maxRecDepth 8000

deriving instance DecidableEq for Except

namespace Cnpy

/-- Little-endian encoding of `n` into `w` bytes, as produced by the
templated `operator+=(std::vector<char>&, T)` in cnpy.h, which pushes the
`sizeof(T)` bytes of the value least-significant first (truncating the
value modulo `2^(8*w)` like the C++ integral cast does). -/
def toLE (w n : Nat) : List Nat :=
  (List.range w).map (fun i => n / 256 ^ i % 256)

/-- Little-endian value of a byte list (how the parser reads back a 2- or
4-byte length field into an integer variable whose remaining bytes are 0). -/
def leVal (bs : List Nat) : Nat :=
  bs.foldr (fun b acc => b + 256 * acc) 0

/-- Decimal digit test on byte values, the `[0-9]` character class. -/
def isDig (c : Nat) : Bool :=
  decide (48 ≤ c) && decide (c ≤ 57)

/-- Decimal digits of `n`, least-significant first, computed by the usual
divide-by-ten loop; `fuel` bounds the iteration count and any `fuel ≥ n`
is enough. -/
def decDigitsRev (fuel n : Nat) : List Nat :=
  match fuel with
  | 0 => []
  | f + 1 => if n = 0 then [] else n % 10 :: decDigitsRev f (n / 10)

/-- Decimal rendering of a number as ASCII bytes, modelling
`std::to_string` on an unsigned value: most-significant digit first. -/
def natToDec (n : Nat) : List Nat :=
  if n = 0 then [48] else ((decDigitsRev n n).reverse.map (fun d => 48 + d))

/-- Numeric value of a list of ASCII digits, most-significant first (the
accumulation a decimal parser performs). -/
def decVal (ds : List Nat) : Nat :=
  ds.foldl (fun a c => a * 10 + (c - 48)) 0

/-- Bytes of the numpy magic string `\x93NUMPY` (`cnpy::constants::numpy_magic`). -/
def numpyMagicBytes : List Nat := [147, 78, 85, 77, 80, 89]

/-- Bytes of the dictionary opening text, up to and including the quote
that precedes the endianness character. -/
def dictStart : List Nat := [123, 39, 100, 101, 115, 99, 114, 39, 58, 32, 39]

/-- Bytes of the dictionary text between the word size and the shape
tuple: quote, comma, the fortran-order key with value False, the shape
key, and the opening parenthesis. -/
def dictMid : List Nat :=
  [39, 44, 32, 39,
   102, 111, 114, 116, 114, 97, 110, 95, 111, 114, 100, 101, 114,
   39, 58, 32, 70, 97, 108, 115, 101, 44, 32, 39,
   115, 104, 97, 112, 101, 39, 58, 32, 40]

/-- Bytes closing the dictionary text: parenthesis, comma, space, brace. -/
def dictClose : List Nat := [41, 44, 32, 125]

/-- Bytes of a comma followed by a space, the separator between shape
dimensions. -/
def commaSpace : List Nat := [44, 32]

/-- Bytes of the token `fortran_order` searched for by the parser. -/
def fortranPat : List Nat :=
  [102, 111, 114, 116, 114, 97, 110, 95, 111, 114, 100, 101, 114]

/-- Bytes of the token `descr` searched for by the parser. -/
def descrPat : List Nat := [100, 101, 115, 99, 114]

/-- Bytes of the token `True` compared against by the parser. -/
def truePat : List Nat := [84, 114, 117, 101]

/-- Type characters produced by `cnpy::map_type` for the supported element
types: f, i, u, b, c. -/
def supportedTypeChars : List Nat := [102, 105, 117, 98, 99]

/-- Textual encoding of the shape tuple contents written by
`create_npy_header`: `shape[0]`, then `", " + shape[i]` for later
dimensions, then one extra comma for rank-1 shapes.  The source indexes
`shape[0]` unconditionally, so the empty-shape case is undefined behaviour
there; it is mapped to the empty text here and every claim restricts to
non-empty shapes. -/
def shapeTextBytes (shape : List Nat) : List Nat :=
  match shape with
  | [] => []
  | s0 :: rest =>
      natToDec s0 ++ rest.flatMap (fun s => commaSpace ++ natToDec s) ++
        (if rest.isEmpty then [44] else [])

/-- Dictionary text assembled by `create_npy_header<T>` before padding,
with `ws` standing for `sizeof(T)`, `tc` for `map_type(typeid(T))`, and 60
(the `<` character) for `BigEndianTest()` on the little-endian hosts the
library targets. -/
def dictBody (ws tc : Nat) (shape : List Nat) : List Nat :=
  dictStart ++ [60, tc] ++ natToDec ws ++ dictMid ++ shapeTextBytes shape ++ dictClose

/-- The `big_header` test of `create_npy_header`: the dictionary plus its
trailing newline would not fit a 16-bit length. -/
def bigHeader (ws tc : Nat) (shape : List Nat) : Bool :=
  decide ((dictBody ws tc shape).length + 1 > 65535)

/-- Width in bytes of the header length field: 4 for the big (version 2.0)
case, 2 otherwise. -/
def headerLenField (big : Bool) : Nat :=
  if big then 4 else 2

/-- The padding amount computed by `create_npy_header`:
`64 - (numpy_magic_length + (big ? 4 : 2) + dict.size() + 1) % 64`.
Note the source formula counts the 6 magic bytes, the length field and one
extra byte, but not the 2 version bytes. -/
def padRemainder (ws tc : Nat) (shape : List Nat) : Nat :=
  64 - (6 + headerLenField (bigHeader ws tc shape) + (dictBody ws tc shape).length + 1) % 64

/-- The dictionary text after padding: `remainder` spaces are appended and
the final byte is overwritten with a newline (`dict.back() = '\n'`). -/
def paddedDict (ws tc : Nat) (shape : List Nat) : List Nat :=
  ((dictBody ws tc shape) ++ List.replicate (padRemainder ws tc shape) 32).dropLast ++ [10]

/-- Full header bytes returned by `create_npy_header<T>`: magic, major
version (2 when big, else 1), minor version 0, then the padded dictionary
length as a 4- or 2-byte little-endian field, then the padded dictionary
text. -/
def create_npy_header (ws tc : Nat) (shape : List Nat) : List Nat :=
  let p := paddedDict ws tc shape
  let big := bigHeader ws tc shape
  numpyMagicBytes ++ [if big then 2 else 1, 0] ++ toLE (headerLenField big) p.length ++ p

/-- Bytes written by `npy_save` in create mode: the header followed by the
`sizeof(T) * nels` raw data bytes. -/
def npySaveCreateBytes (ws tc : Nat) (shape data : List Nat) : List Nat :=
  create_npy_header ws tc shape ++ data

/-- Error cases of the embedded code, one constructor per `throw`
statement of the source (several zlib-internal failures are merged into
`inflateFail` because the inflater itself is an external library). -/
inductive NpyErr where
  | magic
  | version
  | lenRead
  | headerRead
  | missingFortran
  | substrRange
  | missingParen
  | stoulArg
  | stoulRange
  | missingDescr
  | endian
  | payloadRead
  | zipFooterRead
  | eocdBad
  | zipDirRead
  | zipEntryRead
  | nameRead
  | extraRead
  | comprRead
  | inflateFail
  | appendOrder
  | appendWordSize
  | appendRank
  | appendDim
  | fuelOut
deriving DecidableEq, Repr

/-- Value model of `cnpy::NpyArray`: the shape, element width, order flag,
the `num_vals` product as computed by the constructor's `size_t` loop, and
the owned byte buffer. -/
structure NpyArr where
  shape : List Nat
  word_size : Nat
  fortran_order : Bool
  num_vals : Nat
  data : List Nat
deriving DecidableEq, Repr

/-- Model of an input stream: the underlying bytes, the read position,
and the fail bit that `std::istream::read` sets on a short read. -/
structure ByteStream where
  data : List Nat
  pos : Nat
  failed : Bool
deriving DecidableEq, Repr

/-- One `is.read(buf, n)` call: on an already-failed stream nothing is
read; otherwise up to `n` bytes are delivered and the fail bit is set
exactly when fewer than `n` bytes were available.  The first component is
the bytes actually transferred (`gcount` is its length). -/
def bsRead (st : ByteStream) (n : Nat) : List Nat × ByteStream :=
  if st.failed then ([], st)
  else if ((st.data.drop st.pos).take n).length = n then
    ((st.data.drop st.pos).take n, ⟨st.data, st.pos + n, false⟩)
  else
    ((st.data.drop st.pos).take n,
      ⟨st.data, st.pos + ((st.data.drop st.pos).take n).length, true⟩)

/-- First-occurrence substring search, the behaviour of
`std::string::find`: scan positions left to right and report the first
index where `pat` is a prefix of the remaining text. -/
def strfindAux (pat : List Nat) : List Nat → Nat → Option Nat
  | [], i => if pat = [] then some i else none
  | a :: rest, i =>
      if (a :: rest).take pat.length = pat then some i
      else strfindAux pat rest (i + 1)

/-- Search for `pat` inside `s` starting at position 0. -/
def strfind (s pat : List Nat) : Option Nat :=
  strfindAux pat s 0

/-- The `size_t` subtraction `a - b` with wraparound modulo `2^64`. -/
def sub64 (a b : Nat) : Nat :=
  (a + 2 ^ 64 - b) % 2 ^ 64

/-- Model of `std::stoul` restricted to the texts this codebase feeds it:
optional leading whitespace, then a non-empty run of decimal digits whose
value must fit `unsigned long` (64 bits); no digits raises
`invalid_argument`, overflow raises `out_of_range`.  Sign characters and
non-decimal bases never occur in the scanned headers and are not
modelled. -/
def stoulDigits (s : List Nat) : List Nat :=
  (s.dropWhile (fun c => decide (c = 32 ∨ (9 ≤ c ∧ c ≤ 13)))).takeWhile
    (fun c => isDig c)

def stoulModel (s : List Nat) : Except NpyErr Nat :=
  if (stoulDigits s).isEmpty then .error .stoulArg
  else if decVal (stoulDigits s) < 2 ^ 64 then .ok (decVal (stoulDigits s))
  else .error .stoulRange

/-- Conversion of the successive regex matches to numbers, as the shape
loop does: the first failing `stoul` aborts the parse with its error. -/
def stoulAll : List (List Nat) → Except NpyErr (List Nat)
  | [] => .ok []
  | r :: rs =>
    match stoulModel r, stoulAll rs with
    | .error e, _ => .error e
    | .ok _, .error e => .error e
    | .ok v, .ok vs => .ok (v :: vs)

/-- Maximal runs of decimal digits of a byte string, leftmost first: the
successive matches of the regex `[0-9]+` that the shape scanner loops
over.  The accumulator holds the digits of the run currently being read,
in reverse. -/
def digitRunsAux : List Nat → Option (List Nat) → List (List Nat)
  | [], none => []
  | [], some run => [run.reverse]
  | c :: rest, none =>
      if isDig c then digitRunsAux rest (some [c]) else digitRunsAux rest none
  | c :: rest, some run =>
      if isDig c then digitRunsAux rest (some (c :: run))
      else run.reverse :: digitRunsAux rest none

/-- All `[0-9]+` matches of `s` in order. -/
def digitRuns (s : List Nat) : List (List Nat) :=
  digitRunsAux s none

/-- Pure part of `parse_npy_header` operating on the header text: locate
`fortran_order` and compare the value 16 bytes past the token with
`True`; take the span between the first `(` and the first `)` and extract
its digit runs as the shape; locate `descr`, check the endianness
character 9 bytes past it, and read the word size digits up to the next
quote.  `substr` raises `out_of_range` when its start position exceeds
the string length, modelled by `substrRange`. -/
def analyzeFortran (hdr : List Nat) : Except NpyErr Bool :=
  match strfind hdr fortranPat with
  | none => .error .missingFortran
  | some loc1f0 =>
    if hdr.length < loc1f0 + 16 then .error .substrRange
    else .ok (decide (((hdr.drop (loc1f0 + 16)).take 4) = truePat))

/-- Shape part of the header analysis: the span between the first `(` and
the first `)` (the count computed with `size_t` wraparound and clamped by
`substr`), converted number by number. -/
def analyzeShape (hdr : List Nat) : Except NpyErr (List Nat) :=
  match strfind hdr [40], strfind hdr [41] with
  | none, _ => .error .missingParen
  | some _, none => .error .missingParen
  | some loc1, some loc2 =>
    stoulAll (digitRuns ((hdr.drop (loc1 + 1)).take (sub64 loc2 (loc1 + 1))))

/-- Word-size part of the header analysis: locate `descr`, check the
endianness byte 9 past it, then convert the digits that extend to the
next quote (or to the end when no quote follows, `npos` clamping). -/
def analyzeDescr (hdr : List Nat) : Except NpyErr Nat :=
  match strfind hdr descrPat with
  | none => .error .missingDescr
  | some locd0 =>
    if ¬ (hdr.getD (locd0 + 9) 0 = 60 ∨ hdr.getD (locd0 + 9) 0 = 124) then
      .error .endian
    else if hdr.length < locd0 + 9 + 2 then .error .substrRange
    else
      stoulModel ((hdr.drop (locd0 + 9 + 2)).take
        ((strfind (hdr.drop (locd0 + 9 + 2)) [39]).getD (2 ^ 64 - 1)))

def analyzeHeader (hdr : List Nat) : Except NpyErr (Nat × List Nat × Bool) :=
  match analyzeFortran hdr with
  | .error e => .error e
  | .ok fortran_order =>
    match analyzeShape hdr with
    | .error e => .error e
    | .ok shape =>
      match analyzeDescr hdr with
      | .error e => .error e
      | .ok word_size => .ok (word_size, shape, fortran_order)

/-- Common tail of `parse_npy_header` after the version dispatch: read the
`lenWidth`-byte little-endian header length (its `uint32_t` destination
was zero-initialised, so a short read leaves the missing high bytes 0 and
trips the stream check below), fail if the stream went bad, then read
that many text bytes which must be complete and newline-terminated, and
analyze them.  For a zero-length text `header[header.size()-1]` is out of
range in the source; it is modelled as the same `headerRead` failure. -/
def parseWithLen (st : ByteStream) (lenWidth : Nat) :
    Except NpyErr ((Nat × List Nat × Bool) × ByteStream) :=
  match bsRead st lenWidth with
  | (hb, st1) =>
    if st1.failed then .error .lenRead
    else
      match bsRead st1 (leVal hb) with
      | (hdr, st2) =>
        if st2.failed ∨ hdr.length ≠ leVal hb ∨ hdr.getLast? ≠ some 10 then
          .error .headerRead
        else
          match analyzeHeader hdr with
          | .error e => .error e
          | .ok tup => .ok (tup, st2)

/-- Model of `cnpy::parse_npy_header`: compare the 6 magic bytes (a short
read leaves the zero-filled tail of the preallocated string in place),
read major and minor version bytes into zero-initialised variables, then
accept exactly version 1.0 with a 2-byte length field or version 2.0 with
a 4-byte field, and reject anything else before touching the header
text. -/
def parse_npy_header (st : ByteStream) :
    Except NpyErr ((Nat × List Nat × Bool) × ByteStream) :=
  match bsRead st 6 with
  | (m, st1) =>
    if m ++ List.replicate (6 - m.length) 0 ≠ numpyMagicBytes then .error .magic
    else
      match bsRead st1 1 with
      | (mj, st2) =>
        match bsRead st2 1 with
        | (mn, st3) =>
          let major := mj.getD 0 0
          let minor := mn.getD 0 0
          if major = 1 ∧ minor = 0 then parseWithLen st3 2
          else if major = 2 ∧ minor = 0 then parseWithLen st3 4
          else .error .version

/-- The `num_vals` product as computed by the `NpyArray` constructor:
a `size_t` running product over the dimensions. -/
def npyNumVals (shape : List Nat) : Nat :=
  shape.foldl (fun a s => a * s % 2 ^ 64) 1

/-- Model of `load_the_npy_file`: parse the header, then read exactly
`num_vals * word_size` payload bytes (`size_t` product) into the array
buffer. -/
def load_the_npy_file (st : ByteStream) : Except NpyErr (NpyArr × ByteStream) :=
  match parse_npy_header st with
  | .error e => .error e
  | .ok ((word_size, shape, fortran_order), st1) =>
    match bsRead st1 (npyNumVals shape * word_size % 2 ^ 64) with
    | (payload, st2) =>
      if st2.failed ∨ payload.length ≠ npyNumVals shape * word_size % 2 ^ 64 then
        .error .payloadRead
      else .ok (⟨shape, word_size, fortran_order, npyNumVals shape, payload⟩, st2)

/-- Model of `cnpy::npy_load` on the bytes of an existing file. -/
def npy_load (bytes : List Nat) : Except NpyErr NpyArr :=
  (load_the_npy_file ⟨bytes, 0, false⟩).map (fun r => r.1)

/-- Condition under which the length field written by `create_npy_header`
represents the padded dictionary length faithfully: a 2-byte field must
receive a value of at most 65535 and a 4-byte field a value below `2^32`
(the source casts with `(uint16_t)`/`(uint32_t)` and silently truncates
otherwise). -/
def fitsLengthField (ws tc : Nat) (shape : List Nat) : Prop :=
  (bigHeader ws tc shape = false → (paddedDict ws tc shape).length ≤ 65535) ∧
  (bigHeader ws tc shape = true → (paddedDict ws tc shape).length < 2 ^ 32)

/-- The dimension check loop of `npy_save` append mode: for each `i ≥ 1`,
the new `shape[i]` must equal the existing `true_data_shape[i]` (ranks are
already known equal). -/
def trailingMismatch (shape tds : List Nat) : Bool :=
  ((shape.drop 1).zip (tds.drop 1)).any (fun pr => decide (pr.1 ≠ pr.2))

/-- The shape update of append mode: `true_data_shape[0] += shape[0]`, a
`size_t` addition.  The source reads `shape[0]` (undefined for an empty
shape, excluded by every claim) and indexes `true_data_shape[0]` (non-empty
whenever ranks matched a non-empty `shape`). -/
def growHead (tds shape : List Nat) : List Nat :=
  match tds with
  | [] => []
  | t0 :: tr => (t0 + shape.headI) % 2 ^ 64 :: tr

/-- Append branch of `npy_save` on the bytes of the existing file: parse
its header; require fortran order, matching word size, matching rank and
matching trailing dimensions; then rewrite the header for the grown shape
in place at offset 0 (the new header's bytes overwrite that many old
bytes) and append the new raw data at the end of the file. -/
def npy_save_append (file : List Nat) (ws tc : Nat) (shape data : List Nat) :
    Except NpyErr (List Nat) :=
  match parse_npy_header ⟨file, 0, false⟩ with
  | .error e => .error e
  | .ok ((word_size, tds, fortran_order), _) =>
    if fortran_order = false then .error .appendOrder
    else if word_size ≠ ws then .error .appendWordSize
    else if tds.length ≠ shape.length then .error .appendRank
    else if trailingMismatch shape tds then .error .appendDim
    else
      .ok (create_npy_header ws tc (growHead tds shape) ++
        file.drop (create_npy_header ws tc (growHead tds shape)).length ++ data)

/-- Model of `cnpy::npy_save`: mode "a" on an existing file appends,
anything else truncates and writes header plus data. -/
def npy_save (existing : Option (List Nat)) (mode_append : Bool) (ws tc : Nat)
    (shape data : List Nat) : Except NpyErr (List Nat) :=
  match existing, mode_append with
  | some file, true => npy_save_append file ws tc shape data
  | _, _ => .ok (npySaveCreateBytes ws tc shape data)

/-- One bit step of CRC-32 with the reflected polynomial 0xEDB88320. -/
def crc32Step (c : Nat) : Nat :=
  if c % 2 = 1 then Nat.xor (c / 2) 0xEDB88320 else c / 2

/-- One byte step of CRC-32: xor the byte in, then eight bit steps. -/
def crc32Byte (c b : Nat) : Nat :=
  crc32Step (crc32Step (crc32Step (crc32Step
    (crc32Step (crc32Step (crc32Step (crc32Step (Nat.xor c b))))))))

/-- The zlib `crc32` checksum over a byte sequence (standard CRC-32:
initial value 0xFFFFFFFF, reflected polynomial, final complement).
Feeding the bytes in one call or in consecutive calls is equivalent, so
the source's two-call computation over header then data is modelled as one
pass over the concatenation. -/
def crc32 (bytes : List Nat) : Nat :=
  Nat.xor (bytes.foldl (fun c b => crc32Byte c b) 0xFFFFFFFF) 0xFFFFFFFF

/-- Little-endian 16-bit field of a byte list at offset `i`, as the
source's `*reinterpret_cast<uint16_t*>(&buf[i])` reads on a little-endian
host. -/
def u16At (l : List Nat) (i : Nat) : Nat :=
  l.getD i 0 + 256 * l.getD (i + 1) 0

/-- Little-endian 32-bit field of a byte list at offset `i`. -/
def u32At (l : List Nat) (i : Nat) : Nat :=
  l.getD i 0 + 256 * l.getD (i + 1) 0 + 65536 * l.getD (i + 2) 0 +
    16777216 * l.getD (i + 3) 0

/-- Model of `cnpy::parse_zip_footer`: seek 22 bytes from the end (failing
on shorter files), read the fixed fields, validate the single-disk
invariants (disk number 0, start disk 0, per-disk record count equal to
the total, no comment), and return record count, central-directory size
and central-directory offset.  The locator signature itself is never
checked by the source. -/
def parse_zip_footer (file : List Nat) : Except NpyErr (Nat × Nat × Nat) :=
  if file.length < 22 then .error .zipFooterRead
  else if u16At (file.drop (file.length - 22)) 4 ≠ 0 ∨
      u16At (file.drop (file.length - 22)) 6 ≠ 0 ∨
      u16At (file.drop (file.length - 22)) 8 ≠ u16At (file.drop (file.length - 22)) 10 ∨
      u16At (file.drop (file.length - 22)) 20 ≠ 0 then .error .eocdBad
  else
    .ok (u16At (file.drop (file.length - 22)) 10,
      u32At (file.drop (file.length - 22)) 12,
      u32At (file.drop (file.length - 22)) 16)

/-- Local file header built by `npz_save`: signature PK 03 04, version 20,
no flags, compression method 0, zero timestamps, CRC, equal compressed and
uncompressed sizes, the name length, no extra field, then the name. -/
def zipLocalHeader (crc nbytes : Nat) (key : List Nat) : List Nat :=
  [80, 75] ++ toLE 2 0x0403 ++ toLE 2 20 ++ toLE 2 0 ++ toLE 2 0 ++ toLE 2 0 ++
    toLE 2 0 ++ toLE 4 crc ++ toLE 4 nbytes ++ toLE 4 nbytes ++
    toLE 2 key.length ++ toLE 2 0 ++ key

/-- Central directory record built by `npz_save`: signature PK 01 02,
version-made-by 20, then bytes 4..29 of the local header copied verbatim,
zero comment length, disk number, attributes, and the relative offset of
the local header, then the name. -/
def zipGlobalRecord (lh : List Nat) (offset : Nat) (key : List Nat) : List Nat :=
  [80, 75] ++ toLE 2 0x0201 ++ toLE 2 20 ++ ((lh.drop 4).take 26) ++ toLE 2 0 ++
    toLE 2 0 ++ toLE 2 0 ++ toLE 4 0 ++ toLE 4 offset ++ key

/-- End-of-central-directory locator built by `npz_save`: signature PK 05
06, single-disk zeros, the record count twice, directory size, directory
offset and zero comment length. -/
def zipFooterBytes (nrecs dirSize dirOffset : Nat) : List Nat :=
  [80, 75] ++ toLE 2 0x0605 ++ toLE 2 0 ++ toLE 2 0 ++ toLE 2 nrecs ++
    toLE 2 nrecs ++ toLE 4 dirSize ++ toLE 4 dirOffset ++ toLE 2 0

/-- The stored entry name: the key with the fixed `.npy` suffix appended. -/
def npzKey (key : List Nat) : List Nat :=
  key ++ [46, 110, 112, 121]

/-- The entry byte count `nels * sizeof(T) + npy_header.size()`, computed
in `size_t` arithmetic. -/
def npzNBytes (ws tc : Nat) (shape : List Nat) : Nat :=
  (npyNumVals shape * ws % 2 ^ 64 + (create_npy_header ws tc shape).length) % 2 ^ 64

/-- The local header of the entry `npz_save` writes, with the CRC computed
over the array header bytes followed by the raw data. -/
def npzLocalHeader (key' : List Nat) (ws tc : Nat) (shape data : List Nat) : List Nat :=
  zipLocalHeader (crc32 (create_npy_header ws tc shape ++ data))
    (npzNBytes ws tc shape) key'

/-- Append branch of `npz_save`: read the existing locator, read the
existing central directory (`ghs` bytes at offset `gho`, a short read is
an error), rewind the write cursor to `gho`, then write the new local
header, array header, raw data, the old directory bytes followed by the
new record, and a fresh locator with count incremented and the directory
offset placed right after the newly written data. -/
def npz_save_append (file key : List Nat) (ws tc : Nat) (shape data : List Nat) :
    Except NpyErr (List Nat) :=
  match parse_zip_footer file with
  | .error e => .error e
  | .ok (nrecs, ghs, gho) =>
    if ((file.drop gho).take ghs).length ≠ ghs then .error .zipDirRead
    else
      .ok (file.take gho ++
        npzLocalHeader (npzKey key) ws tc shape data ++
        create_npy_header ws tc shape ++ data ++
        ((file.drop gho).take ghs ++
          zipGlobalRecord (npzLocalHeader (npzKey key) ws tc shape data) gho (npzKey key)) ++
        zipFooterBytes (nrecs + 1)
          ((file.drop gho).take ghs ++
            zipGlobalRecord (npzLocalHeader (npzKey key) ws tc shape data) gho
              (npzKey key)).length
          (gho + npzNBytes ws tc shape +
            (npzLocalHeader (npzKey key) ws tc shape data).length))

/-- Create branch of `npz_save`: a fresh single-entry archive. -/
def npz_save_new (key : List Nat) (ws tc : Nat) (shape data : List Nat) : List Nat :=
  npzLocalHeader (npzKey key) ws tc shape data ++
  create_npy_header ws tc shape ++ data ++
  zipGlobalRecord (npzLocalHeader (npzKey key) ws tc shape data) 0 (npzKey key) ++
  zipFooterBytes 1
    (zipGlobalRecord (npzLocalHeader (npzKey key) ws tc shape data) 0 (npzKey key)).length
    (0 + npzNBytes ws tc shape + (npzLocalHeader (npzKey key) ws tc shape data).length)

/-- Model of `cnpy::npz_save`: mode "a" on an existing archive appends an
entry, anything else writes a fresh single-entry archive. -/
def npz_save (existing : Option (List Nat)) (mode_append : Bool) (key : List Nat)
    (ws tc : Nat) (shape data : List Nat) : Except NpyErr (List Nat) :=
  match existing, mode_append with
  | some file, true => npz_save_append file key ws tc shape data
  | _, _ => .ok (npz_save_new key ws tc shape data)

/-- Key derivation in `npz_load`: the trailing 4 characters (the `.npy`
suffix) are erased only when the stored name has at least 4 characters. -/
def stripKey (name : List Nat) : List Nat :=
  if 4 ≤ name.length then name.take (name.length - 4) else name

/-- Insert-or-replace on the name-to-array mapping, the effect of
`arrays[varname] = ...` on a `std::map`. -/
def mapUpsert (m : List (List Nat × NpyArr)) (k : List Nat) (v : NpyArr) :
    List (List Nat × NpyArr) :=
  match m with
  | [] => [(k, v)]
  | (k', v') :: t => if k' = k then (k, v) :: t else (k', v') :: mapUpsert t k v

/-- Tail of `load_the_npz_array` after inflation: parse the array header
from the start of the inflated buffer, then copy the final
`num_vals * word_size` bytes of the buffer (offset `uncompr_bytes -
num_bytes` in `size_t` arithmetic) into the array. -/
def npzArrayFromBuffer (uncompr : Nat) (buf : List Nat) : Except NpyErr NpyArr :=
  match parse_npy_header ⟨buf, 0, false⟩ with
  | .error e => .error e
  | .ok ((word_size, shape, fortran_order), _) =>
    .ok ⟨shape, word_size, fortran_order, npyNumVals shape,
      (buf.drop (sub64 uncompr (npyNumVals shape * word_size % 2 ^ 64))).take
        (npyNumVals shape * word_size % 2 ^ 64)⟩

/-- Model of `load_the_npz_array` for a compressed entry: read exactly the
compressed byte count, inflate through the external raw-deflate inflater
(zlib, passed as a parameter; `none` covers its init/process/finalize
failures), then extract the array from the inflated buffer. -/
def load_the_npz_array (inflate : List Nat → Nat → Option (List Nat))
    (st : ByteStream) (compr uncompr : Nat) : Except NpyErr (NpyArr × ByteStream) :=
  match bsRead st compr with
  | (bc, st1) =>
    if st1.failed ∨ bc.length ≠ compr then .error .comprRead
    else
      match inflate bc uncompr with
      | none => .error .inflateFail
      | some buf =>
        match npzArrayFromBuffer uncompr buf with
        | .error e => .error e
        | .ok arr => .ok (arr, st1)

/-- The scan loop of `npz_load`: read a 30-byte block (a short read is an
error), stop and return the mapping when bytes 2 and 3 are not 03 04,
otherwise read the name and the extra field, dispatch on the compression
method, store the array under the stripped key, and continue.  `fuel`
bounds the number of iterations; every iteration consumes at least 30
bytes, so the caller's `file.length + 1` can never run out. -/
def npzLoadLoop (inflate : List Nat → Nat → Option (List Nat)) :
    Nat → ByteStream → List (List Nat × NpyArr) →
      Except NpyErr (List (List Nat × NpyArr))
  | 0, _, _ => .error .fuelOut
  | fuel + 1, st, acc =>
    match bsRead st 30 with
    | (blk, st1) =>
      if st1.failed ∨ blk.length ≠ 30 then .error .zipEntryRead
      else if blk.getD 2 0 ≠ 3 ∨ blk.getD 3 0 ≠ 4 then .ok acc
      else
        match bsRead st1 (u16At blk 26) with
        | (name, st2) =>
          if st2.failed ∨ name.length ≠ u16At blk 26 then .error .nameRead
          else
            match (if 0 < u16At blk 28 then bsRead st2 (u16At blk 28)
                   else ([], st2)) with
            | (extra, st3) =>
              if st3.failed ∨ extra.length ≠
                  (if 0 < u16At blk 28 then u16At blk 28 else 0) then
                .error .extraRead
              else
                match (if u16At blk 8 = 0 then load_the_npy_file st3
                       else load_the_npz_array inflate st3 (u32At blk 18)
                         (u32At blk 22)) with
                | .error e => .error e
                | .ok (arr, st4) =>
                  npzLoadLoop inflate fuel st4 (mapUpsert acc (stripKey name) arr)

/-- Model of `cnpy::npz_load` on the bytes of an existing archive. -/
def npz_load (inflate : List Nat → Nat → Option (List Nat)) (file : List Nat) :
    Except NpyErr (List (List Nat × NpyArr)) :=
  npzLoadLoop inflate (file.length + 1) ⟨file, 0, false⟩ []

/-- Header text of a handcrafted fortran-ordered array file used as an
append-mode input (the library itself always writes `False`, so an
appendable file must come from elsewhere): the standard dictionary layout
with value `True`, the given shape text, `padLen` spaces and a newline;
word size 8, type f. -/
def trueHeaderText (shapeText : List Nat) (padLen : Nat) : List Nat :=
  dictStart ++ [60, 102] ++ natToDec 8 ++ [39, 44, 32, 39] ++ fortranPat ++
    [39, 58, 32] ++ truePat ++ [44, 32, 39, 115, 104, 97, 112, 101, 39, 58, 32, 40] ++
    shapeText ++ [41, 44, 32, 125] ++ List.replicate padLen 32 ++ [10]

/-- A version 1.0 single-array file with the given header text and
payload. -/
def mkTrueNpyFile (text payload : List Nat) : List Nat :=
  numpyMagicBytes ++ [1, 0] ++ toLE 2 text.length ++ text ++ payload

theorem toLE_length (w n : Nat) : (toLE w n).length = w := by
  simp [toLE]

theorem drop_pref (A B : List Nat) (n : Nat) (h : A.length ≤ n) :
    (A ++ B).drop n = B.drop (n - A.length) := by
  have hn : n = A.length + (n - A.length) := by omega
  rw [hn, List.drop_append, Nat.add_sub_cancel_left]

theorem take_pref (A B : List Nat) (n : Nat) (h : A.length ≤ n) :
    (A ++ B).take n = A ++ B.take (n - A.length) := by
  have hn : n = A.length + (n - A.length) := by omega
  rw [hn, List.take_append, Nat.add_sub_cancel_left]

theorem leVal_toLE2 (n : Nat) : leVal (toLE 2 n) = n % 65536 := by
  show n / 256 ^ 0 % 256 + 256 * (n / 256 ^ 1 % 256 + 256 * 0) = n % 65536
  simp only [pow_zero, pow_one, Nat.div_one]
  omega

theorem leVal_toLE4 (n : Nat) : leVal (toLE 4 n) = n % 4294967296 := by
  show n / 256 ^ 0 % 256 + 256 * (n / 256 ^ 1 % 256 + 256 * (n / 256 ^ 2 % 256 +
    256 * (n / 256 ^ 3 % 256 + 256 * 0))) = n % 4294967296
  simp only [pow_zero, pow_one, Nat.div_one]
  norm_num
  omega

theorem decDigitsRev_eq (fuel n : Nat) (h : n ≤ fuel) :
    decDigitsRev fuel n = Nat.digits 10 n := by
  induction fuel generalizing n with
  | zero =>
      have : n = 0 := by omega
      subst this
      simp [decDigitsRev]
  | succ f ih =>
      by_cases hn : n = 0
      · subst hn; simp [decDigitsRev]
      · rw [decDigitsRev, if_neg hn,
          Nat.digits_def' (by norm_num : (1:Nat) < 10) (Nat.pos_of_ne_zero hn),
          ih (n / 10) ?_]
        have := Nat.div_lt_self (Nat.pos_of_ne_zero hn) (by norm_num : (1:Nat) < 10)
        omega

theorem natToDec_of_ne_zero (n : Nat) (hn : n ≠ 0) :
    natToDec n = (Nat.digits 10 n).reverse.map (fun d => 48 + d) := by
  rw [natToDec, if_neg hn, decDigitsRev_eq n n le_rfl]

theorem natToDec_ne_nil (n : Nat) : natToDec n ≠ [] := by
  by_cases hn : n = 0
  · subst hn; simp [natToDec]
  · rw [natToDec_of_ne_zero n hn]
    simp [Nat.digits_ne_nil_iff_ne_zero, hn]

theorem natToDec_bounds (n : Nat) : ∀ c ∈ natToDec n, 48 ≤ c ∧ c ≤ 57 := by
  intro c hc
  by_cases hn : n = 0
  · subst hn; simp [natToDec] at hc; omega
  · rw [natToDec_of_ne_zero n hn] at hc
    simp only [List.mem_map, List.mem_reverse] at hc
    obtain ⟨d, hd, rfl⟩ := hc
    have := Nat.digits_lt_base (by norm_num : (1:Nat) < 10) hd
    omega

theorem decVal_rev_digits (L : List Nat) :
    decVal (L.reverse.map (fun d => 48 + d)) = Nat.ofDigits 10 L := by
  induction L with
  | nil => simp [decVal, Nat.ofDigits]
  | cons d L' ih =>
      rw [List.reverse_cons, List.map_append]
      show List.foldl _ _ _ = _
      rw [List.foldl_append]
      simp only [List.map_cons, List.map_nil, List.foldl_cons, List.foldl_nil]
      have ih' : List.foldl (fun a c => a * 10 + (c - 48)) 0
          (L'.reverse.map (fun d => 48 + d)) = Nat.ofDigits 10 L' := ih
      rw [ih', Nat.ofDigits_cons]
      omega

theorem decVal_natToDec (n : Nat) : decVal (natToDec n) = n := by
  by_cases hn : n = 0
  · subst hn; simp [natToDec, decVal]
  · rw [natToDec_of_ne_zero n hn, decVal_rev_digits, Nat.ofDigits_digits]

theorem strfindAux_append (pat A B : List Nat) (i : Nat)
    (h : ∀ j, j < A.length → (A.drop j ++ B).take pat.length ≠ pat) :
    strfindAux pat (A ++ B) i = strfindAux pat B (i + A.length) := by
  induction A generalizing i with
  | nil => simp
  | cons a A' ih =>
      rw [List.cons_append]
      rw [show strfindAux pat (a :: (A' ++ B)) i =
        (if (a :: (A' ++ B)).take pat.length = pat then some i
         else strfindAux pat (A' ++ B) (i + 1)) from rfl]
      rw [if_neg (by have := h 0 (by simp); simpa using this)]
      rw [ih (i + 1) (fun j hj => by
        have := h (j + 1) (by simp only [List.length_cons]; omega)
        simpa using this)]
      congr 1
      simp only [List.length_cons]
      omega

theorem strfindAux_found (pat B : List Nat) (i : Nat) (hne : pat ≠ [])
    (hB : B.take pat.length = pat) : strfindAux pat B i = some i := by
  cases B with
  | nil =>
      exfalso
      apply hne
      simpa using hB.symm
  | cons b B' =>
      rw [show strfindAux pat (b :: B') i =
        (if (b :: B').take pat.length = pat then some i
         else strfindAux pat B' (i + 1)) from rfl]
      rw [if_pos hB]

theorem strfindAux_skipH (pat A B : List Nat) (i : Nat) (hne : pat ≠ [])
    (h : pat.headI ∉ A) :
    strfindAux pat (A ++ B) i = strfindAux pat B (i + A.length) := by
  obtain ⟨p0, pr, hp⟩ : ∃ p0 pr, pat = p0 :: pr := by
    cases pat with
    | nil => exact absurd rfl hne
    | cons p0 pr => exact ⟨p0, pr, rfl⟩
  subst hp
  apply strfindAux_append
  intro j hj heq
  obtain ⟨a, t, hat⟩ : ∃ a t, A.drop j = a :: t := by
    cases hd : A.drop j with
    | nil =>
        exfalso
        have := congrArg List.length hd
        simp [List.length_drop] at this
        omega
    | cons a t => exact ⟨a, t, rfl⟩
  rw [hat, List.cons_append, List.length_cons, List.take_succ_cons] at heq
  have ha : a ∈ A := List.drop_subset j A (hat ▸ List.mem_cons_self a t)
  have : a = p0 := (List.cons.injEq _ _ _ _ ▸ heq).1
  simp only [List.headI] at h
  exact h (this ▸ ha)

theorem strfindAux_step_two (p0 p1 : Nat) (pr : List Nat) (a b : Nat)
    (t : List Nat) (i : Nat) (hb : b ≠ p1) :
    strfindAux (p0 :: p1 :: pr) (a :: b :: t) i =
      strfindAux (p0 :: p1 :: pr) (b :: t) (i + 1) := by
  rw [show strfindAux (p0 :: p1 :: pr) (a :: b :: t) i =
    (if (a :: b :: t).take (p0 :: p1 :: pr).length = p0 :: p1 :: pr then some i
     else strfindAux (p0 :: p1 :: pr) (b :: t) (i + 1)) from rfl]
  rw [if_neg]
  intro heq
  simp only [List.length_cons, List.take_succ_cons, List.cons.injEq] at heq
  exact hb heq.2.1

theorem not_mem_of_bounds (c : Nat) (hc : c < 48 ∨ 57 < c) (l : List Nat)
    (hl : ∀ x ∈ l, 48 ≤ x ∧ x ≤ 57) : c ∉ l := by
  intro h
  have := hl c h
  omega

theorem tc_bounds (tc : Nat) (htc : tc ∈ supportedTypeChars) : 98 ≤ tc ∧ tc ≤ 117 := by
  simp only [supportedTypeChars, List.mem_cons, List.not_mem_nil, or_false] at htc
  rcases htc with rfl | rfl | rfl | rfl | rfl <;> omega

theorem natToDec_cons (ws : Nat) : ∃ d0 dt, natToDec ws = d0 :: dt := by
  cases h : natToDec ws with
  | nil => exact absurd h (natToDec_ne_nil ws)
  | cons d0 dt => exact ⟨d0, dt, rfl⟩

theorem fortran_tc_step (tc d0 : Nat) (t : List Nat) (i : Nat) (hd0 : d0 ≤ 57) :
    strfindAux fortranPat (tc :: d0 :: t) i = strfindAux fortranPat (d0 :: t) (i + 1) := by
  rw [show strfindAux fortranPat (tc :: d0 :: t) i =
    (if (tc :: d0 :: t).take fortranPat.length = fortranPat then some i
     else strfindAux fortranPat (d0 :: t) (i + 1)) from rfl]
  rw [if_neg]
  intro heq
  rw [show (tc :: d0 :: t).take fortranPat.length = tc :: d0 :: t.take 11 from rfl] at heq
  have h111 : d0 = 111 := by
    have := congrArg (fun l => l.getD 1 0) heq
    simpa [fortranPat, List.getD_cons_succ, List.getD_cons_zero] using this
  omega

theorem strfind_dict_fortran (ws tc : Nat) (_hb : 98 ≤ tc ∧ tc ≤ 117) (R : List Nat) :
    strfind (dictStart ++ ([60, tc] ++ (natToDec ws ++ (dictMid ++ R)))) fortranPat =
      some (17 + (natToDec ws).length) := by
  obtain ⟨d0, dt, hws⟩ := natToDec_cons ws
  have hd0 := natToDec_bounds ws d0 (hws ▸ List.mem_cons_self d0 dt)
  unfold strfind
  rw [strfindAux_skipH fortranPat dictStart _ 0 (by decide) (by decide)]
  rw [show ([60, tc] : List Nat) ++ (natToDec ws ++ (dictMid ++ R)) =
    [60] ++ (tc :: (natToDec ws ++ (dictMid ++ R))) from rfl]
  rw [strfindAux_skipH fortranPat [60] _ _ (by decide) (by decide)]
  rw [hws]
  rw [show ((d0 :: dt : List Nat) ++ (dictMid ++ R)) = d0 :: (dt ++ (dictMid ++ R)) from rfl]
  rw [fortran_tc_step tc d0 _ _ hd0.2]
  rw [show (d0 :: (dt ++ (dictMid ++ R))) = (d0 :: dt) ++ (dictMid ++ R) from rfl]
  rw [strfindAux_skipH fortranPat (d0 :: dt) _ _ (by decide)
    (not_mem_of_bounds 102 (by omega) _ (hws ▸ natToDec_bounds ws))]
  rw [show dictMid ++ R = [39, 44, 32, 39] ++ (fortranPat ++
    ([39, 58, 32, 70, 97, 108, 115, 101, 44, 32, 39,
      115, 104, 97, 112, 101, 39, 58, 32, 40] ++ R)) from rfl]
  rw [strfindAux_skipH fortranPat [39, 44, 32, 39] _ _ (by decide) (by decide)]
  rw [strfindAux_found fortranPat _ _ (by decide) (List.take_left _ _)]
  have hds : dictStart.length = 11 := by decide
  simp only [Option.some.injEq, List.length_cons, List.length_nil]
  omega

theorem strfind_dict_lparen (ws tc : Nat) (hb : 98 ≤ tc ∧ tc ≤ 117) (R : List Nat) :
    strfind (dictStart ++ ([60, tc] ++ (natToDec ws ++ (dictMid ++ R)))) [40] =
      some (49 + (natToDec ws).length) := by
  unfold strfind
  rw [strfindAux_skipH [40] dictStart _ 0 (by decide) (by decide)]
  rw [strfindAux_skipH [40] [60, tc] _ _ (by decide)
    (by intro h; simp at h; omega)]
  rw [strfindAux_skipH [40] (natToDec ws) _ _ (by decide)
    (not_mem_of_bounds 40 (by omega) _ (natToDec_bounds ws))]
  rw [show dictMid ++ R = [39, 44, 32, 39, 102, 111, 114, 116, 114, 97, 110, 95,
    111, 114, 100, 101, 114, 39, 58, 32, 70, 97, 108, 115, 101, 44, 32, 39,
    115, 104, 97, 112, 101, 39, 58, 32] ++ ([40] ++ R) from rfl]
  rw [strfindAux_skipH [40] _ _ _ (by decide) (by decide)]
  rw [strfindAux_found [40] _ _ (by decide) (List.take_left _ _)]
  have hds : dictStart.length = 11 := by decide
  simp only [Option.some.injEq, List.length_cons, List.length_nil]
  omega

theorem strfind_dict_rparen (ws tc : Nat) (hb : 98 ≤ tc ∧ tc ≤ 117)
    (st R : List Nat) (hst : ∀ c ∈ st, c = 44 ∨ c = 32 ∨ (48 ≤ c ∧ c ≤ 57)) :
    strfind (dictStart ++ ([60, tc] ++ (natToDec ws ++ (dictMid ++ (st ++ (dictClose ++ R))))))
      [41] = some (50 + (natToDec ws).length + st.length) := by
  unfold strfind
  rw [strfindAux_skipH [41] dictStart _ 0 (by decide) (by decide)]
  rw [strfindAux_skipH [41] [60, tc] _ _ (by decide)
    (by intro h; simp at h; omega)]
  rw [strfindAux_skipH [41] (natToDec ws) _ _ (by decide)
    (not_mem_of_bounds 41 (by omega) _ (natToDec_bounds ws))]
  rw [strfindAux_skipH [41] dictMid _ _ (by decide) (by decide)]
  rw [strfindAux_skipH [41] st _ _ (by decide)
    (by intro h; rcases hst 41 h with h' | h' | h' <;> omega)]
  rw [strfindAux_found [41] _ _ (by decide)
    (show (dictClose ++ R).take [41].length = [41] from rfl)]
  have hds : dictStart.length = 11 := by decide
  have hdm : dictMid.length = 37 := by decide
  simp only [Option.some.injEq, List.length_cons, List.length_nil]
  omega

theorem strfind_dict_descr (X : List Nat) :
    strfind (dictStart ++ X) descrPat = some 2 := by
  unfold strfind
  rw [show dictStart ++ X = [123, 39] ++ (descrPat ++ ([39, 58, 32, 39] ++ X)) from rfl]
  rw [strfindAux_skipH descrPat [123, 39] _ 0 (by decide) (by decide)]
  rw [strfindAux_found descrPat _ _ (by decide) (List.take_left _ _)]
  rfl

theorem bsRead_eval (da : List Nat) (p n : Nat) (h : n ≤ da.length - p) :
    bsRead ⟨da, p, false⟩ n = ((da.drop p).take n, ⟨da, p + n, false⟩) := by
  have hl : ((da.drop p).take n).length = n := by
    rw [List.length_take, List.length_drop]
    omega
  simp only [bsRead]
  simp [hl]

theorem analyzeFortran_eval (hdr : List Nat) (lf : Nat)
    (hf : strfind hdr fortranPat = some lf) (hok : ¬ hdr.length < lf + 16) :
    analyzeFortran hdr = .ok (decide (((hdr.drop (lf + 16)).take 4) = truePat)) := by
  unfold analyzeFortran
  rw [hf]
  show (if hdr.length < lf + 16 then (.error .substrRange : Except NpyErr Bool)
    else .ok (decide (((hdr.drop (lf + 16)).take 4) = truePat))) = _
  rw [if_neg hok]

theorem analyzeShape_eval (hdr : List Nat) (l1 l2 : Nat)
    (h1 : strfind hdr [40] = some l1) (h2 : strfind hdr [41] = some l2) :
    analyzeShape hdr =
      stoulAll (digitRuns ((hdr.drop (l1 + 1)).take (sub64 l2 (l1 + 1)))) := by
  unfold analyzeShape
  rw [h1, h2]

theorem analyzeDescr_eval (hdr : List Nat) (ld : Nat)
    (hd : strfind hdr descrPat = some ld) (he : hdr.getD (ld + 9) 0 = 60)
    (hl : ¬ hdr.length < ld + 9 + 2) :
    analyzeDescr hdr = stoulModel ((hdr.drop (ld + 9 + 2)).take
      ((strfind (hdr.drop (ld + 9 + 2)) [39]).getD (2 ^ 64 - 1))) := by
  unfold analyzeDescr
  rw [hd]
  show (if ¬ (hdr.getD (ld + 9) 0 = 60 ∨ hdr.getD (ld + 9) 0 = 124) then
      (.error .endian : Except NpyErr Nat)
    else if hdr.length < ld + 9 + 2 then .error .substrRange
    else stoulModel ((hdr.drop (ld + 9 + 2)).take
      ((strfind (hdr.drop (ld + 9 + 2)) [39]).getD (2 ^ 64 - 1)))) = _
  rw [he]
  rw [if_neg (by simp)]
  rw [if_neg hl]

theorem analyzeHeader_ok (hdr : List Nat) (fo : Bool) (shape : List Nat) (ws : Nat)
    (hF : analyzeFortran hdr = .ok fo) (hS : analyzeShape hdr = .ok shape)
    (hD : analyzeDescr hdr = .ok ws) :
    analyzeHeader hdr = .ok (ws, shape, fo) := by
  unfold analyzeHeader
  rw [hF, hS, hD]

theorem parseWithLen_eval (st st1 st2 : ByteStream) (lenWidth : Nat)
    (hb hdr : List Nat) (tup : Nat × List Nat × Bool)
    (h1 : bsRead st lenWidth = (hb, st1)) (hfail1 : st1.failed = false)
    (h2 : bsRead st1 (leVal hb) = (hdr, st2)) (hfail2 : st2.failed = false)
    (hlen : hdr.length = leVal hb) (hlast : hdr.getLast? = some 10)
    (hA : analyzeHeader hdr = .ok tup) :
    parseWithLen st lenWidth = .ok (tup, st2) := by
  unfold parseWithLen
  rw [h1]
  show (if st1.failed then (.error .lenRead : Except NpyErr _)
    else match bsRead st1 (leVal hb) with
      | (hdr, st2) =>
        if st2.failed ∨ hdr.length ≠ leVal hb ∨ hdr.getLast? ≠ some 10 then
          .error .headerRead
        else
          match analyzeHeader hdr with
          | .error e => .error e
          | .ok tup => .ok (tup, st2)) = _
  rw [hfail1]
  rw [if_neg (by simp)]
  rw [h2]
  show (if st2.failed ∨ hdr.length ≠ leVal hb ∨ hdr.getLast? ≠ some 10 then
      (.error .headerRead : Except NpyErr _)
    else match analyzeHeader hdr with
      | .error e => .error e
      | .ok tup => .ok (tup, st2)) = _
  rw [if_neg (by rw [hfail2, hlen, hlast]; simp)]
  rw [hA]

theorem parse_npy_header_eval (st st1 st2 st3 : ByteStream) (m mj mn : List Nat)
    (hm : bsRead st 6 = (m, st1))
    (hmagic : m ++ List.replicate (6 - m.length) 0 = numpyMagicBytes)
    (h7 : bsRead st1 1 = (mj, st2)) (h8 : bsRead st2 1 = (mn, st3))
    (hmn : mn.getD 0 0 = 0) :
    parse_npy_header st =
      (if mj.getD 0 0 = 1 then parseWithLen st3 2
       else if mj.getD 0 0 = 2 then parseWithLen st3 4
       else .error .version) := by
  unfold parse_npy_header
  rw [hm]
  show (if m ++ List.replicate (6 - m.length) 0 ≠ numpyMagicBytes then
      (.error .magic : Except NpyErr _)
    else match bsRead st1 1 with
      | (mj, st2) =>
        match bsRead st2 1 with
        | (mn, st3) =>
          if mj.getD 0 0 = 1 ∧ mn.getD 0 0 = 0 then parseWithLen st3 2
          else if mj.getD 0 0 = 2 ∧ mn.getD 0 0 = 0 then parseWithLen st3 4
          else .error .version) = _
  rw [if_neg (fun hcon => hcon hmagic)]
  rw [h7]
  show (match bsRead st2 1 with
    | (mn, st3) =>
      if mj.getD 0 0 = 1 ∧ mn.getD 0 0 = 0 then parseWithLen st3 2
      else if mj.getD 0 0 = 2 ∧ mn.getD 0 0 = 0 then parseWithLen st3 4
      else .error .version) = _
  rw [h8]
  show (if mj.getD 0 0 = 1 ∧ mn.getD 0 0 = 0 then parseWithLen st3 2
    else if mj.getD 0 0 = 2 ∧ mn.getD 0 0 = 0 then parseWithLen st3 4
    else .error .version) = _
  rw [hmn]
  by_cases h1 : mj.getD 0 0 = 1
  · rw [if_pos ⟨h1, rfl⟩, if_pos h1]
  · rw [if_neg (fun hc => h1 hc.1), if_neg h1]
    by_cases h2 : mj.getD 0 0 = 2
    · rw [if_pos ⟨h2, rfl⟩, if_pos h2]
    · rw [if_neg (fun hc => h2 hc.1), if_neg h2]

theorem load_the_npy_file_eval (st st1 st2 : ByteStream) (ws : Nat)
    (shape payload : List Nat) (fo : Bool)
    (hp : parse_npy_header st = .ok ((ws, shape, fo), st1))
    (hr : bsRead st1 (npyNumVals shape * ws % 2 ^ 64) = (payload, st2))
    (hfail : st2.failed = false)
    (hplen : payload.length = npyNumVals shape * ws % 2 ^ 64) :
    load_the_npy_file st = .ok (⟨shape, ws, fo, npyNumVals shape, payload⟩, st2) := by
  unfold load_the_npy_file
  rw [hp]
  show (match bsRead st1 (npyNumVals shape * ws % 2 ^ 64) with
    | (payload, st2) =>
      if st2.failed ∨ payload.length ≠ npyNumVals shape * ws % 2 ^ 64 then
        (.error .payloadRead : Except NpyErr (NpyArr × ByteStream))
      else .ok (NpyArr.mk shape ws fo (npyNumVals shape) payload, st2)) = _
  rw [hr]
  show (if st2.failed ∨ payload.length ≠ npyNumVals shape * ws % 2 ^ 64 then
      (.error .payloadRead : Except NpyErr (NpyArr × ByteStream))
    else .ok (NpyArr.mk shape ws fo (npyNumVals shape) payload, st2)) = _
  rw [if_neg (by rw [hfail, hplen]; simp)]

theorem natToDec_isDig (n : Nat) : ∀ c ∈ natToDec n, isDig c = true := by
  intro c hc
  have := natToDec_bounds n c hc
  simp [isDig]
  omega

theorem digitRunsAux_digits (ds t acc : List Nat) (h : ∀ c ∈ ds, isDig c = true) :
    digitRunsAux (ds ++ t) (some acc) = digitRunsAux t (some (ds.reverse ++ acc)) := by
  induction ds generalizing acc with
  | nil => simp
  | cons c cs ih =>
      rw [List.cons_append]
      rw [show digitRunsAux (c :: (cs ++ t)) (some acc) =
        (if isDig c then digitRunsAux (cs ++ t) (some (c :: acc))
         else acc.reverse :: digitRunsAux (cs ++ t) none) from rfl]
      rw [if_pos (by rw [h c (List.mem_cons_self c cs)])]
      rw [ih (c :: acc) (fun x hx => h x (List.mem_cons_of_mem c hx))]
      simp [List.reverse_cons, List.append_assoc]

theorem digitRunsAux_run (ds t : List Nat) (hne : ds ≠ [])
    (h : ∀ c ∈ ds, isDig c = true) :
    digitRunsAux (ds ++ t) none = digitRunsAux t (some ds.reverse) := by
  obtain ⟨c, cs, rfl⟩ : ∃ c cs, ds = c :: cs := by
    cases ds with
    | nil => exact absurd rfl hne
    | cons c cs => exact ⟨c, cs, rfl⟩
  rw [List.cons_append]
  rw [show digitRunsAux (c :: (cs ++ t)) none =
    (if isDig c then digitRunsAux (cs ++ t) (some [c])
     else digitRunsAux (cs ++ t) none) from rfl]
  rw [if_pos (by rw [h c (List.mem_cons_self c cs)])]
  rw [digitRunsAux_digits cs t [c] (fun x hx => h x (List.mem_cons_of_mem c hx))]
  simp [List.reverse_cons]

theorem digitRunsAux_flush (t acc : List Nat)
    (ht : t = [] ∨ ∃ c t', t = c :: t' ∧ isDig c = false) :
    digitRunsAux t (some acc) = acc.reverse :: digitRunsAux t none := by
  rcases ht with rfl | ⟨c, t', rfl, hc⟩
  · rfl
  · rw [show digitRunsAux (c :: t') (some acc) =
      (if isDig c then digitRunsAux t' (some (c :: acc))
       else acc.reverse :: digitRunsAux t' none) from rfl]
    rw [show digitRunsAux (c :: t') none =
      (if isDig c then digitRunsAux t' (some [c])
       else digitRunsAux t' none) from rfl]
    rw [if_neg (by rw [hc]; exact Bool.false_ne_true),
      if_neg (by rw [hc]; exact Bool.false_ne_true)]

theorem digitRuns_flatMap (rest : List Nat) :
    digitRunsAux (rest.flatMap (fun s => commaSpace ++ natToDec s)) none =
      rest.map natToDec := by
  induction rest with
  | nil => rfl
  | cons r rest' ih =>
      rw [List.flatMap_cons]
      rw [show (commaSpace ++ natToDec r) ++
          (rest'.flatMap (fun s => commaSpace ++ natToDec s)) =
        44 :: 32 :: (natToDec r ++ rest'.flatMap (fun s => commaSpace ++ natToDec s))
        from rfl]
      rw [show digitRunsAux (44 :: 32 ::
          (natToDec r ++ rest'.flatMap (fun s => commaSpace ++ natToDec s))) none =
        digitRunsAux (natToDec r ++ rest'.flatMap (fun s => commaSpace ++ natToDec s)) none
        from rfl]
      rw [digitRunsAux_run (natToDec r) _ (natToDec_ne_nil r) (natToDec_isDig r)]
      rw [digitRunsAux_flush _ _ ?tail]
      case tail =>
        cases rest' with
        | nil => exact Or.inl rfl
        | cons r' rest'' =>
            right
            refine ⟨44, 32 :: (natToDec r' ++
              rest''.flatMap (fun s => commaSpace ++ natToDec s)), ?_, rfl⟩
            rw [List.flatMap_cons]
            rfl
      rw [List.reverse_reverse, ih]
      rfl

theorem digitRuns_shapeText (s0 : Nat) (rest : List Nat) :
    digitRuns (shapeTextBytes (s0 :: rest)) = natToDec s0 :: rest.map natToDec := by
  cases rest with
  | nil =>
      unfold digitRuns
      rw [show shapeTextBytes [s0] = natToDec s0 ++ [44] from by
        rw [show shapeTextBytes [s0] = natToDec s0 ++
          List.flatMap ([] : List Nat) (fun s => commaSpace ++ natToDec s) ++
          (if List.isEmpty ([] : List Nat) then [44] else []) from rfl]
        rw [List.flatMap_nil, List.append_nil]
        rfl]
      rw [digitRunsAux_run (natToDec s0) [44] (natToDec_ne_nil s0) (natToDec_isDig s0)]
      rw [digitRunsAux_flush [44] _ (Or.inr ⟨44, [], rfl, rfl⟩)]
      rw [List.reverse_reverse]
      rfl
  | cons r rest' =>
      unfold digitRuns
      rw [show shapeTextBytes (s0 :: r :: rest') = natToDec s0 ++
          List.flatMap (r :: rest') (fun s => commaSpace ++ natToDec s) from by
        rw [show shapeTextBytes (s0 :: r :: rest') = natToDec s0 ++
          List.flatMap (r :: rest') (fun s => commaSpace ++ natToDec s) ++
          (if List.isEmpty (r :: rest') then [44] else []) from rfl]
        rw [show (if List.isEmpty (r :: rest') then [44] else ([] : List Nat)) = []
          from rfl]
        rw [List.append_nil]]
      rw [digitRunsAux_run (natToDec s0) _ (natToDec_ne_nil s0) (natToDec_isDig s0)]
      rw [digitRunsAux_flush _ _ ?tail2]
      case tail2 =>
        right
        refine ⟨44, 32 :: (natToDec r ++
          List.flatMap rest' (fun s => commaSpace ++ natToDec s)), ?_, rfl⟩
        rw [List.flatMap_cons]
        rfl
      rw [List.reverse_reverse, digitRuns_flatMap (r :: rest')]

theorem shapeText_chars (shape : List Nat) :
    ∀ c ∈ shapeTextBytes shape, c = 44 ∨ c = 32 ∨ (48 ≤ c ∧ c ≤ 57) := by
  intro c hc
  cases shape with
  | nil => simp [shapeTextBytes] at hc
  | cons s0 rest =>
      simp only [shapeTextBytes, List.mem_append] at hc
      rcases hc with (hc | hc) | hc
      · exact Or.inr (Or.inr (natToDec_bounds s0 c hc))
      · rw [List.mem_flatMap] at hc
        obtain ⟨s, -, hcs⟩ := hc
        rw [List.mem_append] at hcs
        rcases hcs with hcs | hcs
        · simp [commaSpace] at hcs
          rcases hcs with rfl | rfl
          · exact Or.inl rfl
          · exact Or.inr (Or.inl rfl)
        · exact Or.inr (Or.inr (natToDec_bounds s c hcs))
      · split at hc
        · simp at hc
          exact Or.inl hc
        · simp at hc

theorem stoulDigits_natToDec (d : Nat) : stoulDigits (natToDec d) = natToDec d := by
  obtain ⟨d0, dt, hds⟩ := natToDec_cons d
  have hb0 := natToDec_bounds d d0 (hds ▸ List.mem_cons_self d0 dt)
  have hcond : ¬ (d0 = 32 ∨ (9 ≤ d0 ∧ d0 ≤ 13)) := by omega
  have hdrop : List.dropWhile (fun c => decide (c = 32 ∨ (9 ≤ c ∧ c ≤ 13)))
      (d0 :: dt) = d0 :: dt := by
    rw [List.dropWhile_cons]
    simp only [decide_eq_true_eq]
    rw [if_neg hcond]
  unfold stoulDigits
  rw [hds, hdrop]
  rw [List.takeWhile_eq_self_iff.mpr
    (by intro x hx; exact natToDec_isDig d x (by rw [hds]; exact hx))]

theorem stoul_natToDec (d : Nat) (hd : d < 2 ^ 64) :
    stoulModel (natToDec d) = .ok d := by
  unfold stoulModel
  rw [stoulDigits_natToDec]
  obtain ⟨d0, dt, hds⟩ := natToDec_cons d
  rw [if_neg (by rw [hds]; simp)]
  rw [decVal_natToDec, if_pos hd]

theorem stoulAll_map (dims : List Nat) (h : ∀ x ∈ dims, x < 2 ^ 64) :
    stoulAll (dims.map natToDec) = .ok dims := by
  induction dims with
  | nil => rfl
  | cons d dims' ih =>
      rw [List.map_cons]
      rw [show stoulAll (natToDec d :: dims'.map natToDec) =
        (match stoulModel (natToDec d), stoulAll (dims'.map natToDec) with
         | .error e, _ => .error e
         | .ok _, .error e => .error e
         | .ok v, .ok vs => .ok (v :: vs)) from rfl]
      rw [stoul_natToDec d (h d (List.mem_cons_self d dims')),
        ih (fun x hx => h x (List.mem_cons_of_mem d hx))]

theorem strfind_ws_quote (ws : Nat) (R : List Nat) :
    strfind (natToDec ws ++ (dictMid ++ R)) [39] = some (natToDec ws).length := by
  unfold strfind
  rw [strfindAux_skipH [39] (natToDec ws) _ 0 (by decide)
    (not_mem_of_bounds 39 (by omega) _ (natToDec_bounds ws))]
  rw [strfindAux_found [39] _ _ (by decide)
    (show (dictMid ++ R).take [39].length = [39] from rfl)]
  simp

theorem padRemainder_pos (ws tc : Nat) (shape : List Nat) :
    1 ≤ padRemainder ws tc shape := by
  unfold padRemainder
  have h := Nat.mod_lt (6 + headerLenField (bigHeader ws tc shape) +
    (dictBody ws tc shape).length + 1) (show 0 < 64 by norm_num)
  omega

theorem paddedDict_eq (ws tc : Nat) (shape : List Nat) :
    paddedDict ws tc shape =
      dictBody ws tc shape ++ List.replicate (padRemainder ws tc shape - 1) 32 ++ [10] := by
  have hr := padRemainder_pos ws tc shape
  unfold paddedDict
  revert hr
  generalize padRemainder ws tc shape = r
  intro hr
  match r, hr with
  | r' + 1, _ =>
    rw [List.replicate_succ', ← List.append_assoc, List.dropLast_concat]
    simp

theorem paddedDict_length (ws tc : Nat) (shape : List Nat) :
    (paddedDict ws tc shape).length =
      (dictBody ws tc shape).length + padRemainder ws tc shape := by
  have hr := padRemainder_pos ws tc shape
  rw [paddedDict_eq]
  simp only [List.length_append, List.length_replicate, List.length_cons,
    List.length_nil]
  omega

theorem create_npy_header_length (ws tc : Nat) (shape : List Nat) :
    (create_npy_header ws tc shape).length =
      8 + headerLenField (bigHeader ws tc shape) + (paddedDict ws tc shape).length := by
  cases hb : bigHeader ws tc shape <;>
    simp [create_npy_header, numpyMagicBytes, toLE_length, headerLenField, hb] <;>
    omega

theorem dictBody_length (ws tc : Nat) (shape : List Nat) :
    (dictBody ws tc shape).length =
      54 + (natToDec ws).length + (shapeTextBytes shape).length := by
  simp [dictBody, dictStart, dictMid, dictClose, List.length_append]
  omega

theorem paddedDict_decomp (ws tc : Nat) (shape : List Nat) :
    paddedDict ws tc shape = dictStart ++ ([60, tc] ++ (natToDec ws ++ (dictMid ++
      (shapeTextBytes shape ++ (dictClose ++
        (List.replicate (padRemainder ws tc shape - 1) 32 ++ [10])))))) := by
  rw [paddedDict_eq, dictBody]
  simp [List.append_assoc]

/-- C1.  The spec asserts that the generated header's total prefix length
(magic + version + length field + text) is a multiple of 64, and the
source's own comment says the padding is added "to align at 64"; but the
padding formula counts neither of the two version bytes and counts one
spurious extra byte, so the total length is always congruent to 1 modulo
64 and never a multiple of 64.  The second conjunct evaluates the failing
input: a double array of shape (1,) yields a 129-byte header. -/
theorem create_npy_header_length_mod64 :
    (∀ ws tc : Nat, ∀ shape : List Nat,
      (create_npy_header ws tc shape).length % 64 = 1) ∧
    (create_npy_header 8 102 [1]).length = 129 ∧ ¬ 64 ∣ 129 := by
  refine ⟨fun ws tc shape => ?_, by decide, by decide⟩
  rw [create_npy_header_length, paddedDict_length]
  unfold padRemainder
  cases hb : bigHeader ws tc shape <;> simp [headerLenField] <;> omega

theorem create_npy_header_major (ws tc : Nat) (shape : List Nat) :
    (create_npy_header ws tc shape).getD 6 0 =
      (if bigHeader ws tc shape then 2 else 1) := by
  cases hb : bigHeader ws tc shape <;>
    simp [create_npy_header, numpyMagicBytes, hb]

/-- C6.  The header carries major version 1 (byte 6 of the file) with a
2-byte length field exactly when the dictionary text together with its
trailing newline fits in 16 bits (length + 1 ≤ 65535), and switches to
major version 2 with a 4-byte length field exactly when that text would
exceed 65535 bytes. -/
theorem create_npy_header_version_switch (ws tc : Nat) (shape : List Nat) :
    ((create_npy_header ws tc shape).getD 6 0 = 1 ∧
      (create_npy_header ws tc shape).length = 10 + (paddedDict ws tc shape).length
        ↔ (dictBody ws tc shape).length + 1 ≤ 65535) ∧
    ((create_npy_header ws tc shape).getD 6 0 = 2 ∧
      (create_npy_header ws tc shape).length = 12 + (paddedDict ws tc shape).length
        ↔ (dictBody ws tc shape).length + 1 > 65535) := by
  have hlen := create_npy_header_length ws tc shape
  have hmaj := create_npy_header_major ws tc shape
  rw [headerLenField] at hlen
  cases hb : bigHeader ws tc shape
  · have hle : ¬ ((dictBody ws tc shape).length + 1 > 65535) := by
      have hb' := hb
      rw [bigHeader, decide_eq_false_iff_not] at hb'
      exact hb'
    simp only [hb, Bool.false_eq_true, if_false] at hlen hmaj
    constructor
    · exact ⟨fun _ => by omega, fun _ => ⟨hmaj, by omega⟩⟩
    · constructor
      · intro h
        rw [hmaj] at h
        omega
      · intro h
        omega
  · have hgt : (dictBody ws tc shape).length + 1 > 65535 := by
      have hb' := hb
      rw [bigHeader, decide_eq_true_eq] at hb'
      exact hb'
    simp only [hb, if_true] at hlen hmaj
    constructor
    · constructor
      · intro h
        rw [hmaj] at h
        omega
      · intro h
        omega
    · exact ⟨fun _ => by omega, fun _ => ⟨hmaj, by omega⟩⟩

theorem analyzeHeader_paddedDict (ws tc : Nat) (shape : List Nat)
    (hne : shape ≠ []) (htc : tc ∈ supportedTypeChars) (hws : ws < 2 ^ 64)
    (hdims : ∀ x ∈ shape, x < 2 ^ 64)
    (hlen : (paddedDict ws tc shape).length < 2 ^ 64) :
    analyzeHeader (paddedDict ws tc shape) = .ok (ws, shape, false) := by
  obtain ⟨s0, rest, rfl⟩ : ∃ s0 rest, shape = s0 :: rest := by
    cases shape with
    | nil => exact absurd rfl hne
    | cons a t => exact ⟨a, t, rfl⟩
  have hbtc := tc_bounds tc htc
  have hdec := paddedDict_decomp ws tc (s0 :: rest)
  have hDB := dictBody_length ws tc (s0 :: rest)
  have hPL := paddedDict_length ws tc (s0 :: rest)
  have hr := padRemainder_pos ws tc (s0 :: rest)
  have hfort : strfind (paddedDict ws tc (s0 :: rest)) fortranPat =
      some (17 + (natToDec ws).length) := by
    rw [hdec]; exact strfind_dict_fortran ws tc hbtc _
  have hlp : strfind (paddedDict ws tc (s0 :: rest)) [40] =
      some (49 + (natToDec ws).length) := by
    rw [hdec]; exact strfind_dict_lparen ws tc hbtc _
  have hrp : strfind (paddedDict ws tc (s0 :: rest)) [41] =
      some (50 + (natToDec ws).length + (shapeTextBytes (s0 :: rest)).length) := by
    rw [hdec]
    exact strfind_dict_rparen ws tc hbtc _ _ (shapeText_chars _)
  have hdesc : strfind (paddedDict ws tc (s0 :: rest)) descrPat = some 2 := by
    rw [hdec]; exact strfind_dict_descr _
  have h33 : ((paddedDict ws tc (s0 :: rest)).drop
      (17 + (natToDec ws).length + 16)).take 4 = [70, 97, 108, 115] := by
    have hsplit : paddedDict ws tc (s0 :: rest) =
        (dictStart ++ ([60, tc] ++ (natToDec ws ++ dictMid.take 20))) ++
        (dictMid.drop 20 ++ (shapeTextBytes (s0 :: rest) ++ (dictClose ++
          (List.replicate (padRemainder ws tc (s0 :: rest) - 1) 32 ++ [10])))) := by
      rw [hdec]
      conv_lhs => rw [← List.take_append_drop 20 dictMid]
      simp [List.append_assoc]
      conv_rhs => rw [← List.append_assoc, List.take_append_drop]
    have hXlen : (dictStart ++ ([60, tc] ++ (natToDec ws ++ dictMid.take 20))).length
        = 17 + (natToDec ws).length + 16 := by
      have h20 : (dictMid.take 20).length = 20 := by decide
      simp [List.length_append, h20, dictStart]
      omega
    rw [hsplit, ← hXlen, List.drop_left]
    rfl
  have hF : analyzeFortran (paddedDict ws tc (s0 :: rest)) = .ok false := by
    rw [analyzeFortran_eval _ _ hfort ?hlen16]
    case hlen16 => rw [hPL, hDB]; omega
    rw [h33]
    rfl
  have hstlen : (shapeTextBytes (s0 :: rest)).length < 2 ^ 64 := by
    rw [hPL, hDB] at hlen
    omega
  have hsub : sub64 (50 + (natToDec ws).length + (shapeTextBytes (s0 :: rest)).length)
      (49 + (natToDec ws).length + 1) = (shapeTextBytes (s0 :: rest)).length := by
    unfold sub64
    omega
  have h50 : ((paddedDict ws tc (s0 :: rest)).drop
      (49 + (natToDec ws).length + 1)).take ((shapeTextBytes (s0 :: rest)).length) =
      shapeTextBytes (s0 :: rest) := by
    have hsplit2 : paddedDict ws tc (s0 :: rest) =
        (dictStart ++ ([60, tc] ++ (natToDec ws ++ dictMid))) ++
        (shapeTextBytes (s0 :: rest) ++ (dictClose ++
          (List.replicate (padRemainder ws tc (s0 :: rest) - 1) 32 ++ [10]))) := by
      rw [hdec]
      simp [List.append_assoc]
    have hXlen2 : (dictStart ++ ([60, tc] ++ (natToDec ws ++ dictMid))).length =
        49 + (natToDec ws).length + 1 := by
      simp [List.length_append, dictStart, dictMid]
      omega
    rw [hsplit2, ← hXlen2, List.drop_left, List.take_left]
  have hS : analyzeShape (paddedDict ws tc (s0 :: rest)) = .ok (s0 :: rest) := by
    rw [analyzeShape_eval _ _ _ hlp hrp]
    rw [hsub, h50]
    rw [digitRuns_shapeText]
    rw [show natToDec s0 :: (rest.map natToDec) = (s0 :: rest).map natToDec from rfl]
    exact stoulAll_map _ hdims
  have hget11 : (paddedDict ws tc (s0 :: rest)).getD (2 + 9) 0 = 60 := by
    rw [hdec]; rfl
  have h13 : (paddedDict ws tc (s0 :: rest)).drop (2 + 9 + 2) =
      natToDec ws ++ (dictMid ++ (shapeTextBytes (s0 :: rest) ++ (dictClose ++
        (List.replicate (padRemainder ws tc (s0 :: rest) - 1) 32 ++ [10])))) := by
    rw [hdec]; rfl
  have hD : analyzeDescr (paddedDict ws tc (s0 :: rest)) = .ok ws := by
    rw [analyzeDescr_eval _ 2 hdesc hget11 ?h13len]
    case h13len => rw [hPL, hDB]; omega
    rw [h13]
    rw [strfind_ws_quote ws _]
    rw [show (some (natToDec ws).length).getD (2 ^ 64 - 1) =
      (natToDec ws).length from rfl]
    rw [List.take_left]
    exact stoul_natToDec ws hws
  exact analyzeHeader_ok _ false (s0 :: rest) ws hF hS hD

theorem foldl_wrap_zero (t : List Nat) :
    List.foldl (fun a s => a * s % 2 ^ 64) 0 t = 0 := by
  induction t with
  | nil => rfl
  | cons s t' ih => simpa using ih

theorem foldl_wrap_mem_zero (t : List Nat) (h : 0 ∈ t) (b : Nat) :
    List.foldl (fun a s => a * s % 2 ^ 64) b t = 0 := by
  induction t generalizing b with
  | nil => simp at h
  | cons u t' ih =>
      rw [List.foldl_cons]
      rcases List.mem_cons.mp h with h0 | h0
      · rw [← h0, Nat.mul_zero]
        simpa using foldl_wrap_zero t'
      · exact ih h0 _

theorem npyNumVals_aux (shape : List Nat) : ∀ a : Nat, a * shape.prod < 2 ^ 64 →
    List.foldl (fun a s => a * s % 2 ^ 64) a shape = a * shape.prod := by
  induction shape with
  | nil => intro a h; simp
  | cons s t ih =>
      intro a h
      rw [List.prod_cons] at h
      rw [List.foldl_cons]
      by_cases h0 : t.prod = 0
      · rw [List.prod_cons, h0, Nat.mul_zero, Nat.mul_zero]
        exact foldl_wrap_mem_zero t (List.prod_eq_zero_iff.mp h0) _
      · have hsp : a * s * t.prod < 2 ^ 64 := by rw [Nat.mul_assoc]; exact h
        have has : a * s < 2 ^ 64 := by
          have := Nat.le_mul_of_pos_right (a * s) (Nat.pos_of_ne_zero h0)
          omega
        rw [Nat.mod_eq_of_lt has, ih (a * s) hsp, List.prod_cons, Nat.mul_assoc]

theorem npyNumVals_eq (shape : List Nat) (h : shape.prod < 2 ^ 64) :
    npyNumVals shape = shape.prod := by
  unfold npyNumVals
  rw [npyNumVals_aux shape 1 (by simpa using h), Nat.one_mul]

theorem paddedDict_getLast (ws tc : Nat) (shape : List Nat) :
    (paddedDict ws tc shape).getLast? = some 10 := by
  rw [paddedDict_eq]
  exact List.getLast?_concat _

theorem parseWithLen_saved (k v : Nat) (p data : List Nat) (tup : Nat × List Nat × Bool)
    (hA : analyzeHeader p = .ok tup)
    (hlev : leVal (toLE k p.length) = p.length)
    (hlast : p.getLast? = some 10) :
    parseWithLen ⟨numpyMagicBytes ++ ([v, 0] ++ (toLE k p.length ++ (p ++ data))),
      8, false⟩ k =
    .ok (tup, ⟨numpyMagicBytes ++ ([v, 0] ++ (toLE k p.length ++ (p ++ data))),
      8 + k + p.length, false⟩) := by
  have hlen_da : (numpyMagicBytes ++ ([v, 0] ++ (toLE k p.length ++
      (p ++ data)))).length = 8 + k + (p.length + data.length) := by
    simp [numpyMagicBytes, toLE_length]
    omega
  have hsplit : numpyMagicBytes ++ ([v, 0] ++ (toLE k p.length ++ (p ++ data))) =
      (numpyMagicBytes ++ ([v, 0] ++ toLE k p.length)) ++ (p ++ data) := by
    simp [List.append_assoc]
  have hfront : (numpyMagicBytes ++ ([v, 0] ++ toLE k p.length)).length = 8 + k := by
    simp [numpyMagicBytes, toLE_length]
    omega
  apply parseWithLen_eval
    ⟨numpyMagicBytes ++ ([v, 0] ++ (toLE k p.length ++ (p ++ data))), 8, false⟩
    ⟨numpyMagicBytes ++ ([v, 0] ++ (toLE k p.length ++ (p ++ data))), 8 + k, false⟩
    ⟨numpyMagicBytes ++ ([v, 0] ++ (toLE k p.length ++ (p ++ data))),
      8 + k + p.length, false⟩
    k (toLE k p.length) p tup ?h1 rfl ?h2 rfl hlev.symm hlast hA
  case h1 =>
    rw [bsRead_eval _ 8 k (by omega)]
    rw [show (numpyMagicBytes ++ ([v, 0] ++ (toLE k p.length ++ (p ++ data)))).drop 8 =
      toLE k p.length ++ (p ++ data) from rfl]
    rw [List.take_left' (toLE_length k p.length)]
  case h2 =>
    rw [hlev, bsRead_eval _ (8 + k) p.length (by omega)]
    rw [show ((numpyMagicBytes ++ ([v, 0] ++ (toLE k p.length ++ (p ++ data)))).drop
        (8 + k)) = p ++ data from by rw [hsplit, List.drop_left' hfront]]
    rw [List.take_left]

theorem parse_npy_header_saved (k v : Nat) (p data : List Nat)
    (tup : Nat × List Nat × Bool)
    (hv : v = 1 ∧ k = 2 ∨ v = 2 ∧ k = 4)
    (hA : analyzeHeader p = .ok tup)
    (hlev : leVal (toLE k p.length) = p.length)
    (hlast : p.getLast? = some 10) :
    parse_npy_header ⟨numpyMagicBytes ++ ([v, 0] ++ (toLE k p.length ++ (p ++ data))),
      0, false⟩ =
    .ok (tup, ⟨numpyMagicBytes ++ ([v, 0] ++ (toLE k p.length ++ (p ++ data))),
      8 + k + p.length, false⟩) := by
  have hlen_da : (numpyMagicBytes ++ ([v, 0] ++ (toLE k p.length ++
      (p ++ data)))).length = 8 + k + (p.length + data.length) := by
    simp [numpyMagicBytes, toLE_length]
    omega
  rw [parse_npy_header_eval
    ⟨numpyMagicBytes ++ ([v, 0] ++ (toLE k p.length ++ (p ++ data))), 0, false⟩
    ⟨numpyMagicBytes ++ ([v, 0] ++ (toLE k p.length ++ (p ++ data))), 6, false⟩
    ⟨numpyMagicBytes ++ ([v, 0] ++ (toLE k p.length ++ (p ++ data))), 7, false⟩
    ⟨numpyMagicBytes ++ ([v, 0] ++ (toLE k p.length ++ (p ++ data))), 8, false⟩
    numpyMagicBytes [v] [0] ?hm ?hmagic ?h7 ?h8 rfl]
  case hm =>
    rw [bsRead_eval _ 0 6 (by omega)]
    rw [List.drop_zero, List.take_left' (show numpyMagicBytes.length = 6 from rfl)]
  case hmagic => rfl
  case h7 =>
    rw [bsRead_eval _ 6 1 (by omega)]
    rfl
  case h8 =>
    rw [bsRead_eval _ 7 1 (by omega)]
    rfl
  rcases hv with ⟨rfl, rfl⟩ | ⟨rfl, rfl⟩
  · rw [if_pos (show ([1] : List Nat).getD 0 0 = 1 from rfl)]
    exact parseWithLen_saved 2 1 p data tup hA hlev hlast
  · rw [if_neg (by decide), if_pos (show ([2] : List Nat).getD 0 0 = 2 from rfl)]
    exact parseWithLen_saved 4 2 p data tup hA hlev hlast

theorem load_saved (k v : Nat) (p data : List Nat) (ws : Nat) (shape : List Nat)
    (hv : v = 1 ∧ k = 2 ∨ v = 2 ∧ k = 4)
    (hA : analyzeHeader p = .ok (ws, shape, false))
    (hlev : leVal (toLE k p.length) = p.length)
    (hlast : p.getLast? = some 10)
    (hnb : npyNumVals shape * ws % 2 ^ 64 = data.length) :
    load_the_npy_file ⟨numpyMagicBytes ++ ([v, 0] ++ (toLE k p.length ++ (p ++ data))),
      0, false⟩ =
    .ok (⟨shape, ws, false, npyNumVals shape, data⟩,
      ⟨numpyMagicBytes ++ ([v, 0] ++ (toLE k p.length ++ (p ++ data))),
        8 + k + p.length + data.length, false⟩) := by
  have hparse := parse_npy_header_saved k v p data (ws, shape, false) hv hA hlev hlast
  have hlen_da : (numpyMagicBytes ++ ([v, 0] ++ (toLE k p.length ++
      (p ++ data)))).length = 8 + k + (p.length + data.length) := by
    simp [numpyMagicBytes, toLE_length]
    omega
  have hfront : (numpyMagicBytes ++ ([v, 0] ++ (toLE k p.length ++ p))).length =
      8 + k + p.length := by
    simp [numpyMagicBytes, toLE_length]
    omega
  have hsplit : numpyMagicBytes ++ ([v, 0] ++ (toLE k p.length ++ (p ++ data))) =
      (numpyMagicBytes ++ ([v, 0] ++ (toLE k p.length ++ p))) ++ data := by
    simp [List.append_assoc]
  apply load_the_npy_file_eval
    ⟨numpyMagicBytes ++ ([v, 0] ++ (toLE k p.length ++ (p ++ data))), 0, false⟩
    ⟨numpyMagicBytes ++ ([v, 0] ++ (toLE k p.length ++ (p ++ data))),
      8 + k + p.length, false⟩
    ⟨numpyMagicBytes ++ ([v, 0] ++ (toLE k p.length ++ (p ++ data))),
      8 + k + p.length + data.length, false⟩
    ws shape data false hparse ?hr rfl hnb.symm
  case hr =>
    rw [hnb, bsRead_eval _ (8 + k + p.length) data.length (by omega)]
    rw [show (numpyMagicBytes ++ ([v, 0] ++ (toLE k p.length ++ (p ++ data)))).drop
        (8 + k + p.length) = data from by rw [hsplit, List.drop_left' hfront]]
    rw [List.take_length]

/-- C2 (amended).  Saving an array in create mode and loading the file
back returns the same shape, the same word size, the written (false)
fortran flag and the byte-identical payload, for every supported element
type and non-empty shape — provided the padded dictionary length actually
fits the chosen length field (`fitsLengthField`), and the usual `size_t`
bounds hold.  Without the `fitsLengthField` proviso the claim is false:
the version switch tests the dictionary length before padding, so the
padded length can overflow the 16-bit field (see
`npy_roundtrip_counterexample`). -/
theorem npy_save_load_roundtrip (ws tc : Nat) (shape data : List Nat)
    (hne : shape ≠ []) (htc : tc ∈ supportedTypeChars)
    (hws0 : 0 < ws) (hws : ws < 2 ^ 64)
    (hdims : ∀ x ∈ shape, x < 2 ^ 64)
    (hprod : shape.prod * ws < 2 ^ 64)
    (hdata : data.length = shape.prod * ws)
    (hfit : fitsLengthField ws tc shape) :
    npy_load (npySaveCreateBytes ws tc shape data) =
      .ok ⟨shape, ws, false, shape.prod, data⟩ := by
  have hprodlt : shape.prod < 2 ^ 64 := by
    have := Nat.le_mul_of_pos_right shape.prod hws0
    omega
  have hnv : npyNumVals shape = shape.prod := npyNumVals_eq shape hprodlt
  have hnb : npyNumVals shape * ws % 2 ^ 64 = data.length := by
    rw [hnv, Nat.mod_eq_of_lt hprod, hdata]
  cases hb : bigHeader ws tc shape
  case false =>
    have hfit2 : (paddedDict ws tc shape).length ≤ 65535 := hfit.1 hb
    have hlev : leVal (toLE 2 (paddedDict ws tc shape).length) =
        (paddedDict ws tc shape).length := by
      rw [leVal_toLE2]
      exact Nat.mod_eq_of_lt (by omega)
    have hA := analyzeHeader_paddedDict ws tc shape hne htc hws hdims (by omega)
    have hform : npySaveCreateBytes ws tc shape data =
        numpyMagicBytes ++ ([1, 0] ++ (toLE 2 (paddedDict ws tc shape).length ++
          (paddedDict ws tc shape ++ data))) := by
      simp [npySaveCreateBytes, create_npy_header, hb, headerLenField,
        List.append_assoc]
    unfold npy_load
    rw [hform, load_saved 2 1 (paddedDict ws tc shape) data ws shape
      (Or.inl ⟨rfl, rfl⟩) hA hlev (paddedDict_getLast ws tc shape) hnb]
    rw [hnv]
    rfl
  case true =>
    have hfit4 : (paddedDict ws tc shape).length < 2 ^ 32 := hfit.2 hb
    have hlev : leVal (toLE 4 (paddedDict ws tc shape).length) =
        (paddedDict ws tc shape).length := by
      rw [leVal_toLE4]
      exact Nat.mod_eq_of_lt (by omega)
    have hA := analyzeHeader_paddedDict ws tc shape hne htc hws hdims (by omega)
    have hform : npySaveCreateBytes ws tc shape data =
        numpyMagicBytes ++ ([2, 0] ++ (toLE 4 (paddedDict ws tc shape).length ++
          (paddedDict ws tc shape ++ data))) := by
      simp [npySaveCreateBytes, create_npy_header, hb, headerLenField,
        List.append_assoc]
    unfold npy_load
    rw [hform, load_saved 4 2 (paddedDict ws tc shape) data ws shape
      (Or.inr ⟨rfl, rfl⟩) hA hlev (paddedDict_getLast ws tc shape) hnb]
    rw [hnv]
    rfl

theorem parse_npy_header_step (v : Nat) (R : List Nat) :
    parse_npy_header ⟨numpyMagicBytes ++ ([v, 0] ++ R), 0, false⟩ =
      (if v = 1 then parseWithLen ⟨numpyMagicBytes ++ ([v, 0] ++ R), 8, false⟩ 2
       else if v = 2 then parseWithLen ⟨numpyMagicBytes ++ ([v, 0] ++ R), 8, false⟩ 4
       else .error .version) := by
  have hlen_da : (numpyMagicBytes ++ ([v, 0] ++ R)).length = 8 + R.length := by
    simp [numpyMagicBytes]
    omega
  rw [parse_npy_header_eval
    ⟨numpyMagicBytes ++ ([v, 0] ++ R), 0, false⟩
    ⟨numpyMagicBytes ++ ([v, 0] ++ R), 6, false⟩
    ⟨numpyMagicBytes ++ ([v, 0] ++ R), 7, false⟩
    ⟨numpyMagicBytes ++ ([v, 0] ++ R), 8, false⟩
    numpyMagicBytes [v] [0] ?hm rfl ?h7 ?h8 rfl]
  case hm =>
    rw [bsRead_eval _ 0 6 (by omega)]
    rw [List.drop_zero, List.take_left' (show numpyMagicBytes.length = 6 from rfl)]
  case h7 =>
    rw [bsRead_eval _ 6 1 (by omega)]
    rfl
  case h8 =>
    rw [bsRead_eval _ 7 1 (by omega)]
    rfl
  rw [show ([v] : List Nat).getD 0 0 = v from rfl]

theorem parseWithLen_badlast (st st1 st2 : ByteStream) (lenWidth : Nat)
    (hb hdr : List Nat)
    (h1 : bsRead st lenWidth = (hb, st1)) (hfail1 : st1.failed = false)
    (h2 : bsRead st1 (leVal hb) = (hdr, st2))
    (hlast : hdr.getLast? ≠ some 10) :
    parseWithLen st lenWidth = .error .headerRead := by
  unfold parseWithLen
  rw [h1]
  show (if st1.failed then (.error .lenRead : Except NpyErr _)
    else match bsRead st1 (leVal hb) with
      | (hdr, st2) =>
        if st2.failed ∨ hdr.length ≠ leVal hb ∨ hdr.getLast? ≠ some 10 then
          .error .headerRead
        else
          match analyzeHeader hdr with
          | .error e => .error e
          | .ok tup => .ok (tup, st2)) = _
  rw [hfail1]
  rw [if_neg (by simp)]
  rw [h2]
  show (if st2.failed ∨ hdr.length ≠ leVal hb ∨ hdr.getLast? ≠ some 10 then
      (.error .headerRead : Except NpyErr _)
    else match analyzeHeader hdr with
      | .error e => .error e
      | .ok tup => .ok (tup, st2)) = _
  rw [if_pos (Or.inr (Or.inr hlast))]

theorem load_the_npy_file_err (st : ByteStream) (e : NpyErr)
    (hp : parse_npy_header st = .error e) : load_the_npy_file st = .error e := by
  unfold load_the_npy_file
  rw [hp]

theorem digits_ten_pow (k : Nat) :
    Nat.digits 10 (10 ^ k) = List.replicate k 0 ++ [1] := by
  induction k with
  | zero =>
      rw [pow_zero, Nat.digits_def' (by norm_num : (1:Nat) < 10) (by norm_num)]
      norm_num
  | succ k ih =>
      rw [pow_succ, Nat.digits_def' (by norm_num : (1:Nat) < 10) (by positivity)]
      rw [Nat.mul_mod_left, Nat.mul_div_cancel _ (by norm_num : (0:Nat) < 10), ih]
      rfl

theorem natToDec_ten_pow (k : Nat) :
    natToDec (10 ^ k) = 49 :: List.replicate k 48 := by
  rw [natToDec_of_ne_zero _ (by positivity), digits_ten_pow, List.reverse_append]
  simp [List.map_replicate]

theorem shapeTextBytes_single (s0 : Nat) :
    shapeTextBytes [s0] = natToDec s0 ++ [44] := by
  rw [show shapeTextBytes [s0] = natToDec s0 ++
    List.flatMap ([] : List Nat) (fun s => commaSpace ++ natToDec s) ++
    (if List.isEmpty ([] : List Nat) then [44] else []) from rfl]
  rw [List.flatMap_nil, List.append_nil]
  rfl

theorem dictBody_split (ws tc : Nat) (shape : List Nat) :
    dictBody ws tc shape = (dictStart ++ [60, tc] ++ natToDec ws ++ dictMid) ++
      (shapeTextBytes shape ++ dictClose) := by
  rw [dictBody, List.append_assoc]

theorem npy_load_overflow_small (ws tc : Nat) (shape data : List Nat)
    (hbig : bigHeader ws tc shape = false)
    (hlast : (((paddedDict ws tc shape ++ data)).take
      ((paddedDict ws tc shape).length % 65536)).getLast? ≠ some 10) :
    npy_load (npySaveCreateBytes ws tc shape data) = .error .headerRead := by
  have hform : npySaveCreateBytes ws tc shape data =
      numpyMagicBytes ++ ([1, 0] ++ (toLE 2 (paddedDict ws tc shape).length ++
        (paddedDict ws tc shape ++ data))) := by
    simp [npySaveCreateBytes, create_npy_header, hbig, headerLenField,
      List.append_assoc]
  have hlen_da : (numpyMagicBytes ++ ([1, 0] ++
      (toLE 2 (paddedDict ws tc shape).length ++
        (paddedDict ws tc shape ++ data)))).length =
      10 + ((paddedDict ws tc shape).length + data.length) := by
    simp [numpyMagicBytes, toLE_length]
    omega
  have hd8 : (numpyMagicBytes ++ ([1, 0] ++
      (toLE 2 (paddedDict ws tc shape).length ++
        (paddedDict ws tc shape ++ data)))).drop 8 =
      toLE 2 (paddedDict ws tc shape).length ++
        (paddedDict ws tc shape ++ data) := rfl
  have hd10 : (numpyMagicBytes ++ ([1, 0] ++
      (toLE 2 (paddedDict ws tc shape).length ++
        (paddedDict ws tc shape ++ data)))).drop 10 =
      paddedDict ws tc shape ++ data := rfl
  have hmodle := Nat.mod_le (paddedDict ws tc shape).length 65536
  have h1 : bsRead ⟨numpyMagicBytes ++ ([1, 0] ++
      (toLE 2 (paddedDict ws tc shape).length ++
        (paddedDict ws tc shape ++ data))), 8, false⟩ 2 =
      (toLE 2 (paddedDict ws tc shape).length,
       ⟨numpyMagicBytes ++ ([1, 0] ++
        (toLE 2 (paddedDict ws tc shape).length ++
          (paddedDict ws tc shape ++ data))), 10, false⟩) := by
    rw [bsRead_eval _ 8 2 (by omega)]
    rw [hd8, List.take_left' (toLE_length _ _)]
  have h2 : bsRead ⟨numpyMagicBytes ++ ([1, 0] ++
      (toLE 2 (paddedDict ws tc shape).length ++
        (paddedDict ws tc shape ++ data))), 10, false⟩
      (leVal (toLE 2 (paddedDict ws tc shape).length)) =
      ((paddedDict ws tc shape ++ data).take
        ((paddedDict ws tc shape).length % 65536),
       ⟨numpyMagicBytes ++ ([1, 0] ++
        (toLE 2 (paddedDict ws tc shape).length ++
          (paddedDict ws tc shape ++ data))),
        10 + (paddedDict ws tc shape).length % 65536, false⟩) := by
    rw [leVal_toLE2]
    rw [bsRead_eval _ 10 ((paddedDict ws tc shape).length % 65536) (by omega)]
    rw [hd10]
  have hlast2 : ((paddedDict ws tc shape ++ data).take
      ((paddedDict ws tc shape).length % 65536)).getLast? ≠
      some 10 := hlast
  have hparse : parse_npy_header ⟨numpyMagicBytes ++ ([1, 0] ++
      (toLE 2 (paddedDict ws tc shape).length ++
        (paddedDict ws tc shape ++ data))), 0, false⟩ = .error .headerRead := by
    rw [parse_npy_header_step, if_pos rfl]
    exact parseWithLen_badlast _ _ _ 2 _ _ h1 rfl h2 hlast2
  unfold npy_load
  rw [hform, load_the_npy_file_err _ _ hparse]
  rfl

theorem padRemainder_of_small (ws tc : Nat) (shape : List Nat)
    (hbig : bigHeader ws tc shape = false) :
    padRemainder ws tc shape = 64 - (9 + (dictBody ws tc shape).length) % 64 := by
  unfold padRemainder
  rw [hbig]
  have h9 : 6 + headerLenField false + (dictBody ws tc shape).length + 1 =
      9 + (dictBody ws tc shape).length := by
    simp [headerLenField]
    omega
  rw [h9]

/-- C2 (counterexample).  For the rank-1 shape `(10^65477,)` of doubles,
the unpadded dictionary is 65534 bytes, so the version check keeps the
2-byte length field, but padding grows the text to 65591 bytes; the
`(uint16_t)` cast stores 55, and loading the saved file back reads a
55-byte header text that does not end in a newline and fails — so the
round trip as claimed, for every shape, is false on the code. -/
theorem npy_roundtrip_counterexample :
    npy_load (npySaveCreateBytes 8 102 [10 ^ 65477]
      (List.replicate (10 ^ 65477 * 8) 0)) = .error .headerRead := by
  have hst : shapeTextBytes [10 ^ 65477] = (49 :: List.replicate 65477 48) ++ [44] := by
    rw [shapeTextBytes_single, natToDec_ten_pow]
  have hstlen : (shapeTextBytes [10 ^ 65477]).length = 65479 := by
    rw [hst]
    rw [List.length_append, List.length_cons, List.length_replicate]
    rfl
  have hdb : (dictBody 8 102 [10 ^ 65477]).length = 65534 := by
    rw [dictBody_length, hstlen]
    have h8 : (natToDec 8).length = 1 := rfl
    rw [h8]
  have hbig : bigHeader 8 102 [10 ^ 65477] = false := by
    unfold bigHeader
    rw [hdb]
    rfl
  have hpad : padRemainder 8 102 [10 ^ 65477] = 57 := by
    rw [padRemainder_of_small 8 102 _ hbig, hdb]
  have hpl : (paddedDict 8 102 [10 ^ 65477]).length = 65591 := by
    rw [paddedDict_length, hdb, hpad]
  apply npy_load_overflow_small 8 102 [10 ^ 65477] (List.replicate (10 ^ 65477 * 8) 0)
    hbig
  rw [hpl]
  have hm55 : (65591 : Nat) % 65536 = 55 := rfl
  rw [hm55]
  rw [List.take_append_of_le_length (by rw [hpl]; decide)]
  rw [paddedDict_eq]
  rw [List.take_append_of_le_length (by
    rw [List.length_append, hdb, List.length_replicate]
    omega)]
  rw [List.take_append_of_le_length (by rw [hdb]; decide)]
  rw [dictBody_split]
  rw [take_pref _ _ 55 (by decide)]
  have hA51 : (dictStart ++ [60, 102] ++ natToDec 8 ++ dictMid).length = 51 := rfl
  rw [hA51]
  have h4 : (55 : Nat) - 51 = 4 := rfl
  rw [h4]
  rw [hst]
  rw [List.take_append_of_le_length (by
    rw [List.length_append, List.length_cons, List.length_replicate]
    omega)]
  rw [List.take_append_of_le_length (by
    rw [List.length_cons, List.length_replicate]
    omega)]
  have htk : ((49 : Nat) :: List.replicate 65477 48).take 4 =
      49 :: (List.replicate 65477 48).take 3 := rfl
  rw [htk]
  rw [List.take_replicate]
  have hmin : min 3 65477 = 3 := rfl
  rw [hmin]
  have hrep3 : (49 : Nat) :: List.replicate 3 48 = [49, 48, 48] ++ [48] := rfl
  rw [hrep3]
  rw [← List.append_assoc]
  rw [List.getLast?_concat]
  decide

/-- Witness for the amended round trip: a 2 x 3 array of 4-byte signed
integers saves and reloads to identical shape, word size, order flag and
payload. -/
theorem npy_save_load_roundtrip_witness :
    npy_load (npySaveCreateBytes 4 105 [2, 3] (List.replicate 24 7)) =
      .ok ⟨[2, 3], 4, false, 6, List.replicate 24 7⟩ :=
  npy_save_load_roundtrip 4 105 [2, 3] (List.replicate 24 7)
    (by decide) (by decide) (by decide) (by decide) (by decide) (by decide)
    (by decide) ⟨fun _ => by decide, fun h => absurd h (by decide)⟩

/-- C3 (amended).  Append mode on an existing fortran-ordered file whose
word size, rank and trailing dimensions match: when the rewritten header
for the grown shape has exactly the length of the existing header region
(the source rewrites the header in place at offset 0 and assumes this),
the result is the new header, then the old payload, then the new raw
bytes.  The claim omits the trailing-dimension requirement and the
header-length caveat. -/
theorem npy_save_append_grows (file : List Nat) (ws tc : Nat)
    (shape data tds : List Nat) (st : ByteStream)
    (hp : parse_npy_header ⟨file, 0, false⟩ = .ok ((ws, tds, true), st))
    (hrank : tds.length = shape.length)
    (htrail : trailingMismatch shape tds = false)
    (hlen : (create_npy_header ws tc (growHead tds shape)).length = st.pos) :
    npy_save (some file) true ws tc shape data =
      .ok (create_npy_header ws tc (growHead tds shape) ++
        file.drop st.pos ++ data) := by
  show npy_save_append file ws tc shape data = _
  unfold npy_save_append
  rw [hp]
  simp [hrank, htrail, hlen]

/-- Witness for the amended append: a fortran-ordered file of shape
`(1, 3)` with a 129-byte header accepts an appended `(2, 3)` block and
yields the grown header, the old payload and the new bytes. -/
theorem npy_save_append_grows_witness :
    npy_save (some (mkTrueNpyFile (trueHeaderText [49, 44, 32, 51] 60)
        (List.replicate 24 5))) true 8 102 [2, 3] (List.replicate 48 7) =
      .ok (create_npy_header 8 102 (growHead [1, 3] [2, 3]) ++
        (mkTrueNpyFile (trueHeaderText [49, 44, 32, 51] 60)
          (List.replicate 24 5)).drop 129 ++ List.replicate 48 7) :=
  npy_save_append_grows
    (mkTrueNpyFile (trueHeaderText [49, 44, 32, 51] 60) (List.replicate 24 5))
    8 102 [2, 3] (List.replicate 48 7) [1, 3]
    ⟨mkTrueNpyFile (trueHeaderText [49, 44, 32, 51] 60) (List.replicate 24 5),
      129, false⟩
    (by decide) (by decide) (by decide) (by decide)

/-- C3 (counterexample).  On a file of shape `(1, 3)` whose header is only
69 bytes, appending a `(2, 3)` block rewrites a 129-byte header in place:
the write runs past the old header and destroys the payload, so the result
is the new header directly followed by the new bytes — not the old payload
followed by the new bytes as the claim promises. -/
theorem npy_save_append_counterexample :
    npy_save (some (mkTrueNpyFile (trueHeaderText [49, 44, 32, 51] 0)
        (List.replicate 24 5))) true 8 102 [2, 3] (List.replicate 48 7) =
      .ok (create_npy_header 8 102 [3, 3] ++ List.replicate 48 7) ∧
    create_npy_header 8 102 [3, 3] ++ List.replicate 48 7 ≠
      create_npy_header 8 102 [3, 3] ++ List.replicate 24 5 ++
        List.replicate 48 7 := by
  constructor
  · decide
  · decide

/-- C4 (corrected form).  Append mode fails exactly when the existing
header declares `fortran_order = false`, or its word size differs, or its
rank differs, or — omitted by the claim — some trailing dimension
differs. -/
theorem npy_save_append_error_iff (file : List Nat) (ws tc ws0 : Nat)
    (shape data tds : List Nat) (fo : Bool) (st : ByteStream)
    (hp : parse_npy_header ⟨file, 0, false⟩ = .ok ((ws0, tds, fo), st)) :
    (∃ e, npy_save (some file) true ws tc shape data = .error e) ↔
      (fo = false ∨ ws0 ≠ ws ∨ tds.length ≠ shape.length ∨
        trailingMismatch shape tds = true) := by
  show (∃ e, npy_save_append file ws tc shape data = .error e) ↔ _
  unfold npy_save_append
  rw [hp]
  cases fo with
  | false => simp
  | true =>
    by_cases h1 : ws0 = ws
    · subst h1
      by_cases h2 : tds.length = shape.length
      · by_cases h3 : trailingMismatch shape tds = true
        · simp [h2, h3]
        · simp [h2, h3]
      · simp [h2]
    · simp [h1]

/-- Witness: appending 4-byte elements to an existing 8-byte-element file
is rejected (a word-size mismatch error). -/
theorem npy_save_append_error_iff_witness :
    ∃ e, npy_save (some (mkTrueNpyFile (trueHeaderText [49, 44, 32, 51] 0)
        (List.replicate 24 5))) true 4 105 [2, 3] (List.replicate 24 7) =
      .error e :=
  (npy_save_append_error_iff
    (mkTrueNpyFile (trueHeaderText [49, 44, 32, 51] 0) (List.replicate 24 5))
    4 105 8 [2, 3] (List.replicate 24 7) [1, 3] true
    ⟨mkTrueNpyFile (trueHeaderText [49, 44, 32, 51] 0) (List.replicate 24 5),
      69, false⟩
    (by decide)).mpr (Or.inr (Or.inl (by decide)))

/-- C4 (counterexample to the claim as stated).  A fortran-ordered file of
shape `(1, 2)` and an appended `(2, 3)` block agree in order, word size
and rank, so the claim promises success; the code compares the trailing
dimensions, finds 3 different from 2, and fails. -/
theorem npy_save_append_dim_counterexample :
    parse_npy_header ⟨mkTrueNpyFile (trueHeaderText [49, 44, 32, 50] 0)
        (List.replicate 16 5), 0, false⟩ =
      .ok ((8, [1, 2], true),
        ⟨mkTrueNpyFile (trueHeaderText [49, 44, 32, 50] 0)
          (List.replicate 16 5), 69, false⟩) ∧
    ([1, 2] : List Nat).length = ([2, 3] : List Nat).length ∧
    npy_save (some (mkTrueNpyFile (trueHeaderText [49, 44, 32, 50] 0)
        (List.replicate 16 5))) true 8 102 [2, 3] (List.replicate 48 7) =
      .error .appendDim := by
  refine ⟨by decide, by decide, by decide⟩

theorem zipFooterBytes_length (n ds dOfs : Nat) :
    (zipFooterBytes n ds dOfs).length = 22 := rfl

theorem parse_zip_footer_concat (a : List Nat) (n ds dOfs : Nat)
    (hn : n < 65536) (hds : ds < 2 ^ 32) (hdo : dOfs < 2 ^ 32) :
    parse_zip_footer (a ++ zipFooterBytes n ds dOfs) = .ok (n, ds, dOfs) := by
  have e4 : u16At (zipFooterBytes n ds dOfs) 4 = 0 := rfl
  have e6 : u16At (zipFooterBytes n ds dOfs) 6 = 0 := rfl
  have e8 : u16At (zipFooterBytes n ds dOfs) 8 =
      n / 1 % 256 + 256 * (n / 256 % 256) := rfl
  have e10 : u16At (zipFooterBytes n ds dOfs) 10 =
      n / 1 % 256 + 256 * (n / 256 % 256) := rfl
  have e20 : u16At (zipFooterBytes n ds dOfs) 20 = 0 := rfl
  have e12 : u32At (zipFooterBytes n ds dOfs) 12 =
      ds / 1 % 256 + 256 * (ds / 256 % 256) + 65536 * (ds / 65536 % 256) +
        16777216 * (ds / 16777216 % 256) := rfl
  have e16 : u32At (zipFooterBytes n ds dOfs) 16 =
      dOfs / 1 % 256 + 256 * (dOfs / 256 % 256) + 65536 * (dOfs / 65536 % 256) +
        16777216 * (dOfs / 16777216 % 256) := rfl
  have h32 : (2 : Nat) ^ 32 = 4294967296 := by norm_num
  have hlen : (a ++ zipFooterBytes n ds dOfs).length = a.length + 22 := by
    rw [List.length_append, zipFooterBytes_length]
  unfold parse_zip_footer
  rw [hlen, Nat.add_sub_cancel, List.drop_left]
  rw [if_neg (by omega)]
  rw [e4, e6, e8, e10, e20]
  rw [if_neg (by simp)]
  rw [e12, e16]
  have v10 : n / 1 % 256 + 256 * (n / 256 % 256) = n := by omega
  have v12 : ds / 1 % 256 + 256 * (ds / 256 % 256) + 65536 * (ds / 65536 % 256) +
      16777216 * (ds / 16777216 % 256) = ds := by
    rw [h32] at hds
    omega
  have v16 : dOfs / 1 % 256 + 256 * (dOfs / 256 % 256) +
      65536 * (dOfs / 65536 % 256) + 16777216 * (dOfs / 16777216 % 256) = dOfs := by
    rw [h32] at hdo
    omega
  rw [v10, v12, v16]

theorem u16At_append (a l : List Nat) (i : Nat) :
    u16At (a ++ l) (a.length + i) = u16At l i := by
  unfold u16At
  have h1 : a.length + i + 1 = a.length + (i + 1) := by omega
  rw [h1, List.getD_append_right _ _ _ _ (Nat.le_add_right _ _),
    List.getD_append_right _ _ _ _ (Nat.le_add_right _ _),
    Nat.add_sub_cancel_left, Nat.add_sub_cancel_left]

theorem npz_save_append_eval (file key : List Nat) (ws tc : Nat)
    (shape data : List Nat) (nrecs ghs gho : Nat)
    (hf : parse_zip_footer file = .ok (nrecs, ghs, gho))
    (hdir : ((file.drop gho).take ghs).length = ghs) :
    npz_save_append file key ws tc shape data =
      .ok (file.take gho ++
        npzLocalHeader (npzKey key) ws tc shape data ++
        create_npy_header ws tc shape ++ data ++
        ((file.drop gho).take ghs ++
          zipGlobalRecord (npzLocalHeader (npzKey key) ws tc shape data) gho
            (npzKey key)) ++
        zipFooterBytes (nrecs + 1)
          ((file.drop gho).take ghs ++
            zipGlobalRecord (npzLocalHeader (npzKey key) ws tc shape data) gho
              (npzKey key)).length
          (gho + npzNBytes ws tc shape +
            (npzLocalHeader (npzKey key) ws tc shape data).length)) := by
  unfold npz_save_append
  rw [hf]
  show (if ((file.drop gho).take ghs).length ≠ ghs then
      (.error .zipDirRead : Except NpyErr (List Nat))
    else
      .ok (file.take gho ++
        npzLocalHeader (npzKey key) ws tc shape data ++
        create_npy_header ws tc shape ++ data ++
        ((file.drop gho).take ghs ++
          zipGlobalRecord (npzLocalHeader (npzKey key) ws tc shape data) gho
            (npzKey key)) ++
        zipFooterBytes (nrecs + 1)
          ((file.drop gho).take ghs ++
            zipGlobalRecord (npzLocalHeader (npzKey key) ws tc shape data) gho
              (npzKey key)).length
          (gho + npzNBytes ws tc shape +
            (npzLocalHeader (npzKey key) ws tc shape data).length))) = _
  rw [if_neg (fun h => h hdir)]

theorem npz_method_field_zero (a l key2 : List Nat) (ws tc : Nat)
    (shape data : List Nat) :
    u16At (a ++ (npzLocalHeader key2 ws tc shape data ++ l)) (a.length + 8) = 0 := by
  rw [u16At_append]
  rfl

/-- C5.  After a successful `npz_save`, creating a fresh archive or
appending to an existing one, the locator at the end of the written file
reads back with the entry count grown by one, the directory size equal to
the previous directory bytes plus the one new central record, and the
directory offset equal to the total length of what precedes the directory
(one past the last payload byte); and the new entry's local header stores
compression method 0. -/
theorem npz_save_footer_invariants (file key : List Nat) (ws tc : Nat)
    (shape data : List Nat) (nrecs ghs gho : Nat)
    (hdata : data.length = npyNumVals shape * ws % 2 ^ 64)
    (hnb : npyNumVals shape * ws % 2 ^ 64 +
      (create_npy_header ws tc shape).length < 2 ^ 64)
    (hf : parse_zip_footer file = .ok (nrecs, ghs, gho))
    (hdir : ((file.drop gho).take ghs).length = ghs)
    (hgho : gho ≤ file.length)
    (hcount : nrecs + 1 < 65536)
    (hds0 : (zipGlobalRecord (npzLocalHeader (npzKey key) ws tc shape data) 0
      (npzKey key)).length < 2 ^ 32)
    (hdo0 : npzNBytes ws tc shape +
      (npzLocalHeader (npzKey key) ws tc shape data).length < 2 ^ 32)
    (hds1 : ghs + (zipGlobalRecord (npzLocalHeader (npzKey key) ws tc shape data)
      gho (npzKey key)).length < 2 ^ 32)
    (hdo1 : gho + npzNBytes ws tc shape +
      (npzLocalHeader (npzKey key) ws tc shape data).length < 2 ^ 32) :
    (parse_zip_footer (npz_save_new key ws tc shape data) =
      .ok (1,
        (zipGlobalRecord (npzLocalHeader (npzKey key) ws tc shape data) 0
          (npzKey key)).length,
        (npzLocalHeader (npzKey key) ws tc shape data ++
          create_npy_header ws tc shape ++ data).length) ∧
     u16At (npz_save_new key ws tc shape data) 8 = 0) ∧
    (∃ r, npz_save (some file) true key ws tc shape data = .ok r ∧
      parse_zip_footer r =
        .ok (nrecs + 1,
          ghs + (zipGlobalRecord (npzLocalHeader (npzKey key) ws tc shape data)
            gho (npzKey key)).length,
          (file.take gho ++ npzLocalHeader (npzKey key) ws tc shape data ++
            create_npy_header ws tc shape ++ data).length) ∧
      u16At r (gho + 8) = 0) := by
  have hnpz : npzNBytes ws tc shape =
      data.length + (create_npy_header ws tc shape).length := by
    unfold npzNBytes
    rw [Nat.mod_eq_of_lt hnb, hdata]
  have ht : (file.take gho).length = gho := by
    rw [List.length_take]
    omega
  have hnew : npz_save_new key ws tc shape data =
      (npzLocalHeader (npzKey key) ws tc shape data ++
        create_npy_header ws tc shape ++ data ++
        zipGlobalRecord (npzLocalHeader (npzKey key) ws tc shape data) 0
          (npzKey key)) ++
      zipFooterBytes 1
        (zipGlobalRecord (npzLocalHeader (npzKey key) ws tc shape data) 0
          (npzKey key)).length
        (0 + npzNBytes ws tc shape +
          (npzLocalHeader (npzKey key) ws tc shape data).length) := rfl
  refine ⟨⟨?_, ?_⟩, ?_⟩
  · rw [hnew]
    rw [parse_zip_footer_concat _ _ _ _ (by omega) hds0 (by omega)]
    have h3 : (0 : Nat) + npzNBytes ws tc shape +
        (npzLocalHeader (npzKey key) ws tc shape data).length =
        (npzLocalHeader (npzKey key) ws tc shape data ++
          create_npy_header ws tc shape ++ data).length := by
      rw [List.length_append, List.length_append, hnpz]
      omega
    rw [h3]
  · rfl
  · have hsave : npz_save (some file) true key ws tc shape data =
        .ok (file.take gho ++
          npzLocalHeader (npzKey key) ws tc shape data ++
          create_npy_header ws tc shape ++ data ++
          ((file.drop gho).take ghs ++
            zipGlobalRecord (npzLocalHeader (npzKey key) ws tc shape data) gho
              (npzKey key)) ++
          zipFooterBytes (nrecs + 1)
            ((file.drop gho).take ghs ++
              zipGlobalRecord (npzLocalHeader (npzKey key) ws tc shape data) gho
                (npzKey key)).length
            (gho + npzNBytes ws tc shape +
              (npzLocalHeader (npzKey key) ws tc shape data).length)) :=
      npz_save_append_eval file key ws tc shape data nrecs ghs gho hf hdir
    refine ⟨_, hsave, ?_, ?_⟩
    · rw [parse_zip_footer_concat _ _ _ _ hcount
        (by rw [List.length_append, hdir]; exact hds1) hdo1]
      have hD : ((file.drop gho).take ghs ++
          zipGlobalRecord (npzLocalHeader (npzKey key) ws tc shape data) gho
            (npzKey key)).length =
          ghs + (zipGlobalRecord (npzLocalHeader (npzKey key) ws tc shape data)
            gho (npzKey key)).length := by
        rw [List.length_append, hdir]
      have hOfs : gho + npzNBytes ws tc shape +
          (npzLocalHeader (npzKey key) ws tc shape data).length =
          (file.take gho ++ npzLocalHeader (npzKey key) ws tc shape data ++
            create_npy_header ws tc shape ++ data).length := by
        rw [List.length_append, List.length_append, List.length_append, ht, hnpz]
        omega
      rw [hD, hOfs]
    · simp only [List.append_assoc]
      rw [show gho + 8 = (file.take gho).length + 8 from by rw [ht]]
      exact npz_method_field_zero (file.take gho) _ (npzKey key) ws tc shape data

/-- Witness for the locator invariant: create an archive with one entry
`a`, then append an entry `b`; both footers read back as required and both
entries are stored uncompressed. -/
theorem npz_save_footer_invariants_witness :
    (parse_zip_footer (npz_save_new [98] 1 105 [3] [7, 8, 9]) =
      .ok (1,
        (zipGlobalRecord (npzLocalHeader (npzKey [98]) 1 105 [3] [7, 8, 9]) 0
          (npzKey [98])).length,
        (npzLocalHeader (npzKey [98]) 1 105 [3] [7, 8, 9] ++
          create_npy_header 1 105 [3] ++ [7, 8, 9]).length) ∧
     u16At (npz_save_new [98] 1 105 [3] [7, 8, 9]) 8 = 0) ∧
    (∃ r, npz_save (some (npz_save_new [97] 1 105 [2] [5, 6])) true [98] 1 105
        [3] [7, 8, 9] = .ok r ∧
      parse_zip_footer r =
        .ok (1 + 1,
          51 + (zipGlobalRecord (npzLocalHeader (npzKey [98]) 1 105 [3]
            [7, 8, 9]) 166 (npzKey [98])).length,
          ((npz_save_new [97] 1 105 [2] [5, 6]).take 166 ++
            npzLocalHeader (npzKey [98]) 1 105 [3] [7, 8, 9] ++
            create_npy_header 1 105 [3] ++ [7, 8, 9]).length) ∧
      u16At r (166 + 8) = 0) :=
  npz_save_footer_invariants (npz_save_new [97] 1 105 [2] [5, 6]) [98] 1 105
    [3] [7, 8, 9] 1 51 166
    (by decide) (by decide) (by decide) (by decide) (by decide) (by decide)
    (by decide) (by decide) (by decide) (by decide)

/-- C7.  For a compressed entry whose inflated buffer has the declared
uncompressed size, the loaded payload is the tail of the buffer starting
at offset `uncompressed size - num_vals * word_size`, and that tail has
exactly `num_vals * word_size` bytes. -/
theorem load_the_npz_array_tail (inflate : List Nat → Nat → Option (List Nat))
    (st st1 st2 : ByteStream) (compr uncompr : Nat) (bc buf : List Nat)
    (ws0 : Nat) (shape : List Nat) (fo : Bool)
    (h1 : bsRead st compr = (bc, st1)) (hok : st1.failed = false)
    (hlen : bc.length = compr)
    (hinf : inflate bc uncompr = some buf)
    (hbuf : buf.length = uncompr)
    (huc : uncompr < 2 ^ 64)
    (hp : parse_npy_header ⟨buf, 0, false⟩ = .ok ((ws0, shape, fo), st2))
    (hnb : npyNumVals shape * ws0 % 2 ^ 64 ≤ uncompr) :
    load_the_npz_array inflate st compr uncompr =
      .ok (⟨shape, ws0, fo, npyNumVals shape,
        buf.drop (uncompr - npyNumVals shape * ws0 % 2 ^ 64)⟩, st1) ∧
    (buf.drop (uncompr - npyNumVals shape * ws0 % 2 ^ 64)).length =
      npyNumVals shape * ws0 % 2 ^ 64 := by
  have hdlen : (buf.drop (uncompr - npyNumVals shape * ws0 % 2 ^ 64)).length =
      npyNumVals shape * ws0 % 2 ^ 64 := by
    rw [List.length_drop, hbuf]
    omega
  refine ⟨?_, hdlen⟩
  have hload : npzArrayFromBuffer uncompr buf =
      .ok (NpyArr.mk shape ws0 fo (npyNumVals shape)
        (buf.drop (uncompr - npyNumVals shape * ws0 % 2 ^ 64))) := by
    unfold npzArrayFromBuffer
    rw [hp]
    show Except.ok (NpyArr.mk shape ws0 fo (npyNumVals shape)
        ((buf.drop (sub64 uncompr (npyNumVals shape * ws0 % 2 ^ 64))).take
          (npyNumVals shape * ws0 % 2 ^ 64))) = _
    have hsub : sub64 uncompr (npyNumVals shape * ws0 % 2 ^ 64) =
        uncompr - npyNumVals shape * ws0 % 2 ^ 64 := by
      unfold sub64
      omega
    rw [hsub, List.take_of_length_le (le_of_eq hdlen)]
  unfold load_the_npz_array
  rw [h1]
  show (if st1.failed ∨ bc.length ≠ compr then
      (.error .comprRead : Except NpyErr (NpyArr × ByteStream))
    else match inflate bc uncompr with
      | none => .error .inflateFail
      | some buf2 =>
        match npzArrayFromBuffer uncompr buf2 with
        | .error e => .error e
        | .ok arr => .ok (arr, st1)) = _
  rw [if_neg (by simp [hok, hlen])]
  rw [hinf]
  show (match npzArrayFromBuffer uncompr buf with
      | .error e => (.error e : Except NpyErr (NpyArr × ByteStream))
      | .ok arr => .ok (arr, st1)) = _
  rw [hload]

/-- Witness for the tail copy: inflating to a 153-byte array file of
shape `(2, 3)` and word size 4 copies its last 24 bytes. -/
theorem load_the_npz_array_tail_witness :
    load_the_npz_array
      (fun _ _ => some (npySaveCreateBytes 4 105 [2, 3] (List.replicate 24 7)))
      ⟨[1, 2, 3], 0, false⟩ 3
      (npySaveCreateBytes 4 105 [2, 3] (List.replicate 24 7)).length =
      .ok (⟨[2, 3], 4, false, npyNumVals [2, 3],
        (npySaveCreateBytes 4 105 [2, 3] (List.replicate 24 7)).drop
          ((npySaveCreateBytes 4 105 [2, 3] (List.replicate 24 7)).length -
            npyNumVals [2, 3] * 4 % 2 ^ 64)⟩, ⟨[1, 2, 3], 3, false⟩) ∧
    ((npySaveCreateBytes 4 105 [2, 3] (List.replicate 24 7)).drop
      ((npySaveCreateBytes 4 105 [2, 3] (List.replicate 24 7)).length -
        npyNumVals [2, 3] * 4 % 2 ^ 64)).length =
      npyNumVals [2, 3] * 4 % 2 ^ 64 :=
  load_the_npz_array_tail
    (fun _ _ => some (npySaveCreateBytes 4 105 [2, 3] (List.replicate 24 7)))
    ⟨[1, 2, 3], 0, false⟩ ⟨[1, 2, 3], 3, false⟩
    ⟨npySaveCreateBytes 4 105 [2, 3] (List.replicate 24 7), 129, false⟩
    3 (npySaveCreateBytes 4 105 [2, 3] (List.replicate 24 7)).length
    [1, 2, 3] (npySaveCreateBytes 4 105 [2, 3] (List.replicate 24 7))
    4 [2, 3] false
    (by decide) rfl (by decide) rfl rfl (by decide) (by decide) (by decide)

theorem mapUpsert_ne_nil (m : List (List Nat × NpyArr)) (k : List Nat)
    (v : NpyArr) : mapUpsert m k v ≠ [] := by
  cases m with
  | nil => simp [mapUpsert]
  | cons p t =>
    rcases p with ⟨k1, v1⟩
    unfold mapUpsert
    split <;> simp

theorem npzLoadLoop_ne_nil (inflate : List Nat → Nat → Option (List Nat))
    (fuel : Nat) : ∀ (st : ByteStream) (acc m : List (List Nat × NpyArr)),
    acc ≠ [] → npzLoadLoop inflate fuel st acc = .ok m → m ≠ [] := by
  induction fuel with
  | zero =>
    intro st acc m hacc h
    exact absurd h (by simp [npzLoadLoop])
  | succ n ih =>
    intro st acc m hacc h
    rw [npzLoadLoop] at h
    rcases hb : bsRead st 30 with ⟨blk, st1⟩
    rw [hb] at h
    dsimp only at h
    by_cases h1 : st1.failed = true ∨ blk.length ≠ 30
    · rw [if_pos h1] at h
      exact absurd h (by simp)
    · rw [if_neg h1] at h
      by_cases h2 : blk.getD 2 0 ≠ 3 ∨ blk.getD 3 0 ≠ 4
      · rw [if_pos h2] at h
        injection h with h3
        rw [← h3]
        exact hacc
      · rw [if_neg h2] at h
        rcases hn : bsRead st1 (u16At blk 26) with ⟨name, st2⟩
        rw [hn] at h
        dsimp only at h
        by_cases h3 : st2.failed = true ∨ name.length ≠ u16At blk 26
        · rw [if_pos h3] at h
          exact absurd h (by simp)
        · rw [if_neg h3] at h
          rcases he : (if 0 < u16At blk 28 then bsRead st2 (u16At blk 28)
              else ([], st2)) with ⟨extra, st3⟩
          rw [he] at h
          dsimp only at h
          by_cases h4 : st3.failed = true ∨ extra.length ≠
              (if 0 < u16At blk 28 then u16At blk 28 else 0)
          · rw [if_pos h4] at h
            exact absurd h (by simp)
          · rw [if_neg h4] at h
            rcases hl : (if u16At blk 8 = 0 then load_the_npy_file st3
                else load_the_npz_array inflate st3 (u32At blk 18)
                  (u32At blk 22)) with e | pr
            · rw [hl] at h
              dsimp only at h
              exact absurd h (by simp)
            · rcases pr with ⟨arr, st4⟩
              rw [hl] at h
              dsimp only at h
              exact ih st4 _ m (mapUpsert_ne_nil acc _ arr) h

/-- C8 (corrected form).  The scan stops with "no more entries" exactly
when bytes 2 and 3 of the 30-byte block are not 03 04: the code never
compares the leading two signature bytes `PK`, contrary to the claim that
the full 4-byte signature is tested. -/
theorem npz_load_stop_iff (inflate : List Nat → Nat → Option (List Nat))
    (file : List Nat) (h30 : 30 ≤ file.length) :
    npz_load inflate file = .ok [] ↔
      ((file.take 30).getD 2 0 ≠ 3 ∨ (file.take 30).getD 3 0 ≠ 4) := by
  unfold npz_load
  rw [npzLoadLoop]
  rw [bsRead_eval file 0 30 (by omega)]
  rw [List.drop_zero]
  dsimp only
  rw [if_neg (by
    simp only [List.length_take]
    simp
    omega)]
  by_cases hsig : (file.take 30).getD 2 0 ≠ 3 ∨ (file.take 30).getD 3 0 ≠ 4
  · rw [if_pos hsig]
    exact iff_of_true rfl hsig
  · rw [if_neg hsig]
    refine iff_of_false ?_ hsig
    intro h
    rcases hn : bsRead ⟨file, 0 + 30, false⟩ (u16At (file.take 30) 26) with
      ⟨name, st2⟩
    rw [hn] at h
    dsimp only at h
    by_cases h3 : st2.failed = true ∨ name.length ≠ u16At (file.take 30) 26
    · rw [if_pos h3] at h
      exact absurd h (by simp)
    · rw [if_neg h3] at h
      rcases he : (if 0 < u16At (file.take 30) 28 then
          bsRead st2 (u16At (file.take 30) 28) else ([], st2)) with ⟨extra, st3⟩
      rw [he] at h
      dsimp only at h
      by_cases h4 : st3.failed = true ∨ extra.length ≠
          (if 0 < u16At (file.take 30) 28 then u16At (file.take 30) 28 else 0)
      · rw [if_pos h4] at h
        exact absurd h (by simp)
      · rw [if_neg h4] at h
        rcases hl : (if u16At (file.take 30) 8 = 0 then load_the_npy_file st3
            else load_the_npz_array inflate st3 (u32At (file.take 30) 18)
              (u32At (file.take 30) 22)) with e | pr
        · rw [hl] at h
          dsimp only at h
          exact absurd h (by simp)
        · rcases pr with ⟨arr, st4⟩
          rw [hl] at h
          dsimp only at h
          exact npzLoadLoop_ne_nil inflate file.length st4 _ []
            (mapUpsert_ne_nil [] _ arr) h rfl

/-- Witness: a 30-byte block of zeros carries no entry signature, so the
scan returns the empty mapping rather than an error. -/
theorem npz_load_stop_iff_witness :
    npz_load (fun _ _ => none) (List.replicate 30 0) = .ok [] :=
  (npz_load_stop_iff (fun _ _ => none) (List.replicate 30 0)
    (by decide)).mpr (by decide)

/-- C8 (counterexample to the claim as stated).  A block whose leading
4 bytes are 00 00 03 04 — not the local-file signature `PK 03 04` — should
terminate the scan under the claim; the code sees 03 04 at offsets 2 and 3,
treats the block as an entry, and fails with a magic error instead of
returning the mapping built so far. -/
theorem npz_load_pk_counterexample :
    ([0, 0, 3, 4] ++ List.replicate 26 0).take 4 ≠ [80, 75, 3, 4] ∧
    npz_load (fun _ _ => none) ([0, 0, 3, 4] ++ List.replicate 26 0) =
      .error .magic := by
  refine ⟨by decide, by decide⟩

theorem stoulModel_ne_version (s : List Nat) :
    stoulModel s ≠ .error .version := by
  unfold stoulModel
  split
  · simp
  · split <;> simp

theorem stoulAll_ne_version (rs : List (List Nat)) :
    stoulAll rs ≠ .error .version := by
  induction rs with
  | nil => simp [stoulAll]
  | cons r t ih =>
    unfold stoulAll
    rcases hm : stoulModel r with e | v <;> rcases ha : stoulAll t with e2 | vs <;>
      dsimp only
    · intro hc
      injection hc with hc2
      exact stoulModel_ne_version r (by rw [hm, hc2])
    · intro hc
      injection hc with hc2
      exact stoulModel_ne_version r (by rw [hm, hc2])
    · intro hc
      injection hc with hc2
      exact ih (by rw [ha, hc2])
    · simp

theorem analyzeFortran_ne_version (hdr : List Nat) :
    analyzeFortran hdr ≠ .error .version := by
  unfold analyzeFortran
  split
  · simp
  · split <;> simp

theorem analyzeShape_ne_version (hdr : List Nat) :
    analyzeShape hdr ≠ .error .version := by
  unfold analyzeShape
  split
  · simp
  · simp
  · exact stoulAll_ne_version _

theorem analyzeDescr_ne_version (hdr : List Nat) :
    analyzeDescr hdr ≠ .error .version := by
  unfold analyzeDescr
  split
  · simp
  · split
    · simp
    · split
      · simp
      · exact stoulModel_ne_version _

theorem analyzeHeader_ne_version (hdr : List Nat) :
    analyzeHeader hdr ≠ .error .version := by
  unfold analyzeHeader
  rcases hf : analyzeFortran hdr with e | fo
  · dsimp only
    intro hc
    injection hc with hc2
    exact analyzeFortran_ne_version hdr (by rw [hf, hc2])
  · dsimp only
    rcases hs : analyzeShape hdr with e | shape
    · dsimp only
      intro hc
      injection hc with hc2
      exact analyzeShape_ne_version hdr (by rw [hs, hc2])
    · dsimp only
      rcases hd : analyzeDescr hdr with e | ws
      · dsimp only
        intro hc
        injection hc with hc2
        exact analyzeDescr_ne_version hdr (by rw [hd, hc2])
      · simp

theorem parseWithLen_ne_version (st : ByteStream) (lenWidth : Nat) :
    parseWithLen st lenWidth ≠ .error .version := by
  unfold parseWithLen
  rcases hb : bsRead st lenWidth with ⟨hb1, st1⟩
  dsimp only
  split
  · simp
  · rcases hc : bsRead st1 (leVal hb1) with ⟨hdr, st2⟩
    dsimp only
    split
    · simp
    · rcases ha : analyzeHeader hdr with e | tup
      · dsimp only
        intro hcon
        injection hcon with hc2
        exact analyzeHeader_ne_version hdr (by rw [ha, hc2])
      · simp

theorem parse_npy_header_eval2 (st st1 st2 st3 : ByteStream) (m mj mn : List Nat)
    (hm : bsRead st 6 = (m, st1))
    (hmagic : m ++ List.replicate (6 - m.length) 0 = numpyMagicBytes)
    (h7 : bsRead st1 1 = (mj, st2)) (h8 : bsRead st2 1 = (mn, st3)) :
    parse_npy_header st =
      (if mj.getD 0 0 = 1 ∧ mn.getD 0 0 = 0 then parseWithLen st3 2
       else if mj.getD 0 0 = 2 ∧ mn.getD 0 0 = 0 then parseWithLen st3 4
       else .error .version) := by
  unfold parse_npy_header
  rw [hm]
  show (if m ++ List.replicate (6 - m.length) 0 ≠ numpyMagicBytes then
      (.error .magic : Except NpyErr _)
    else match bsRead st1 1 with
      | (mj2, st22) =>
        match bsRead st22 1 with
        | (mn2, st32) =>
          if mj2.getD 0 0 = 1 ∧ mn2.getD 0 0 = 0 then parseWithLen st32 2
          else if mj2.getD 0 0 = 2 ∧ mn2.getD 0 0 = 0 then parseWithLen st32 4
          else .error .version) = _
  rw [if_neg (fun hcon => hcon hmagic)]
  rw [h7]
  show (match bsRead st2 1 with
    | (mn2, st32) =>
      if mj.getD 0 0 = 1 ∧ mn2.getD 0 0 = 0 then parseWithLen st32 2
      else if mj.getD 0 0 = 2 ∧ mn2.getD 0 0 = 0 then parseWithLen st32 4
      else .error .version) = _
  rw [h8]

/-- C9.  With the magic intact, the parser accepts exactly versions 1.0
(2-byte length field) and 2.0 (4-byte length field): it reports the
version error precisely for every other major/minor pair, before any
header text is read. -/
theorem parse_npy_header_version_iff (v w : Nat) (R : List Nat) :
    parse_npy_header ⟨numpyMagicBytes ++ ([v, w] ++ R), 0, false⟩ =
      .error .version ↔ ¬ ((v = 1 ∧ w = 0) ∨ (v = 2 ∧ w = 0)) := by
  have hlen : (numpyMagicBytes ++ ([v, w] ++ R)).length = 8 + R.length := by
    simp [numpyMagicBytes]
    omega
  have hgen := parse_npy_header_eval2
    ⟨numpyMagicBytes ++ ([v, w] ++ R), 0, false⟩
    ⟨numpyMagicBytes ++ ([v, w] ++ R), 6, false⟩
    ⟨numpyMagicBytes ++ ([v, w] ++ R), 7, false⟩
    ⟨numpyMagicBytes ++ ([v, w] ++ R), 8, false⟩
    numpyMagicBytes [v] [w] ?hm rfl ?h7 ?h8
  case hm =>
    rw [bsRead_eval _ 0 6 (by omega)]
    rw [List.drop_zero, List.take_left' (show numpyMagicBytes.length = 6 from rfl)]
  case h7 =>
    rw [bsRead_eval _ 6 1 (by omega)]
    rfl
  case h8 =>
    rw [bsRead_eval _ 7 1 (by omega)]
    rfl
  rw [hgen]
  have hv : ([v] : List Nat).getD 0 0 = v := rfl
  have hw : ([w] : List Nat).getD 0 0 = w := rfl
  rw [hv, hw]
  by_cases h1 : v = 1 ∧ w = 0
  · rw [if_pos h1]
    exact iff_of_false (parseWithLen_ne_version _ 2) (fun hn => hn (Or.inl h1))
  · rw [if_neg h1]
    by_cases h2 : v = 2 ∧ w = 0
    · rw [if_pos h2]
      exact iff_of_false (parseWithLen_ne_version _ 4) (fun hn => hn (Or.inr h2))
    · rw [if_neg h2]
      exact iff_of_true rfl (fun hd => hd.elim h1 h2)

/-- Witness: version 3.0 is rejected with the version error. -/
theorem parse_npy_header_version_iff_witness :
    parse_npy_header ⟨numpyMagicBytes ++ ([3, 0] ++ List.replicate 4 0), 0,
      false⟩ = .error .version :=
  (parse_npy_header_version_iff 3 0 (List.replicate 4 0)).mpr (by decide)

/-- C10.  The `.npy` suffix is stripped from a stored entry name only when
the name has at least 4 characters: any 4-byte suffix is removed (a 4-byte
name becomes the empty key), and a shorter name is kept unchanged. -/
theorem stripKey_spec :
    (∀ pre suf : List Nat, suf.length = 4 → stripKey (pre ++ suf) = pre) ∧
    (∀ name2 : List Nat, name2.length < 4 → stripKey name2 = name2) := by
  constructor
  · intro pre suf hs
    unfold stripKey
    rw [if_pos (by rw [List.length_append, hs]; omega)]
    rw [List.length_append, hs, Nat.add_sub_cancel, List.take_left]
  · intro name2 hn
    unfold stripKey
    rw [if_neg (by omega)]

/-- Witness: `ab.npy` maps to key `ab`, the 4-byte name `.npy` maps to the
empty key, and the 2-byte name `ab` is kept as is. -/
theorem stripKey_spec_witness :
    stripKey ([97, 98] ++ [46, 110, 112, 121]) = [97, 98] ∧
    stripKey ([] ++ [46, 110, 112, 121]) = [] ∧
    stripKey [97, 98] = [97, 98] :=
  ⟨stripKey_spec.1 [97, 98] [46, 110, 112, 121] (by decide),
   stripKey_spec.1 [] [46, 110, 112, 121] (by decide),
   stripKey_spec.2 [97, 98] (by decide)⟩

end Cnpy
